import Mathlib

/-!
Verification of the NoteShare in-memory domain store (`MemStorage`) and its
route-level operations, shallowly embedded from the TypeScript source
(`server/storage.ts`, `server/routes.ts`, `server/upload.ts`,
`shared/schema.ts`).

JavaScript `Map` objects are modelled as lists of records in insertion order
(`mapSet` / `mapDelete` mirror `Map.set` / `Map.delete`); `Date` values are
modelled as natural-number timestamps supplied to each operation; methods that
can `throw` return an `Except` result alongside the (possibly already mutated)
state, matching the fact that a thrown exception does not roll back earlier
in-place mutations; `Array.prototype.sort`, which is stable, is modelled by a
stable insertion sort `jsSort`.
-/

namespace NoteShare

/-- A stored `users` row (schema.ts). `coins` is a JS number, modelled as `Int`. -/
structure User where
  id : Nat
  username : String
  email : String
  password : String
  coins : Int
  avatarUrl : Option String
  createdAt : Nat
deriving DecidableEq

/-- A stored `notes` row (schema.ts). -/
structure Note where
  id : Nat
  title : String
  description : String
  userId : Nat
  category : String
  fileUrl : String
  fileName : String
  fileSize : Int
  fileType : String
  isPremium : Bool
  coinPrice : Int
  previewPages : Int
  downloads : Int
  likes : Int
  tags : List String
  createdAt : Nat
deriving DecidableEq

/-- A stored `comments` row (schema.ts). -/
structure Comment where
  id : Nat
  noteId : Nat
  userId : Nat
  content : String
  createdAt : Nat
deriving DecidableEq

/-- A stored `downloads` row (schema.ts). -/
structure Download where
  id : Nat
  noteId : Nat
  userId : Nat
  createdAt : Nat
deriving DecidableEq

/-- A stored `likes` row (schema.ts). -/
structure Like where
  id : Nat
  noteId : Nat
  userId : Nat
  createdAt : Nat
deriving DecidableEq

/-- A stored `discussions` row (schema.ts). -/
structure Discussion where
  id : Nat
  userId : Nat
  title : String
  content : String
  category : String
  likes : Int
  views : Int
  isPinned : Bool
  createdAt : Nat
  updatedAt : Nat
deriving DecidableEq

/-- A stored `discussion_replies` row (schema.ts). -/
structure DiscussionReply where
  id : Nat
  discussionId : Nat
  userId : Nat
  content : String
  parentReplyId : Option Nat
  attachmentUrl : Option String
  attachmentType : Option String
  likes : Int
  createdAt : Nat
  updatedAt : Nat
deriving DecidableEq

/-- A stored `follows` row (schema.ts). -/
structure Follow where
  id : Nat
  followerId : Nat
  followedId : Nat
  createdAt : Nat
deriving DecidableEq

/-- Payload of `insertUserSchema` (username, email, password). -/
structure InsertUser where
  username : String
  email : String
  password : String
deriving DecidableEq

/-- Payload of `insertNoteSchema`: all `notes` columns except id, downloads,
likes, createdAt.  Note that the schema places no constraint on `coinPrice`
beyond it being an integer. -/
structure InsertNote where
  title : String
  description : String
  userId : Nat
  category : String
  fileUrl : String
  fileName : String
  fileSize : Int
  fileType : String
  isPremium : Bool
  coinPrice : Int
  previewPages : Int
  tags : List String
deriving DecidableEq

/-- Payload of `insertCommentSchema`. -/
structure InsertComment where
  noteId : Nat
  userId : Nat
  content : String
deriving DecidableEq

/-- Payload of `insertDownloadSchema`. -/
structure InsertDownload where
  noteId : Nat
  userId : Nat
deriving DecidableEq

/-- Payload of `insertLikeSchema`. -/
structure InsertLike where
  noteId : Nat
  userId : Nat
deriving DecidableEq

/-- Payload of `insertDiscussionSchema`. -/
structure InsertDiscussion where
  userId : Nat
  title : String
  content : String
  category : String
deriving DecidableEq

/-- Payload of `insertDiscussionReplySchema`: all columns except id, likes,
createdAt, updatedAt.  `parentReplyId` is an arbitrary nullable integer; the
schema does not constrain what it references. -/
structure InsertDiscussionReply where
  discussionId : Nat
  userId : Nat
  content : String
  parentReplyId : Option Nat
  attachmentUrl : Option String
  attachmentType : Option String
deriving DecidableEq

/-- Payload of `insertFollowSchema`. -/
structure InsertFollow where
  followerId : Nat
  followedId : Nat
deriving DecidableEq

/-- JS `String.prototype.toLowerCase` (character-wise lowering, written over
the character list so that it evaluates inside the kernel). -/
def jsToLower (s : String) : String := String.mk (s.toList.map Char.toLower)

/-- JS `Map.set k v`: if an entry with the key exists it is replaced in place,
otherwise the entry is appended (JS maps preserve insertion order). -/
def mapSet (keyOf : α → Nat) (k : Nat) (v : α) (l : List α) : List α :=
  if l.any (fun x => keyOf x == k) then
    l.map (fun x => if keyOf x == k then v else x)
  else
    l ++ [v]

/-- JS `Map.delete k`: removes the entry with the key. -/
def mapDelete (keyOf : α → Nat) (k : Nat) (l : List α) : List α :=
  l.filter (fun x => keyOf x != k)

/-- Insert `x` into `t` before the first element `y` with `le x y`;
the auxiliary step of the stable sort `jsSort`. -/
def insertLe (le : α → α → Bool) (x : α) : List α → List α
  | [] => [x]
  | y :: ys => if le x y then x :: y :: ys else y :: insertLe le x ys

/-- Stable insertion sort, modelling JS `Array.prototype.sort` with a
comparator `c` via `le a b ↔ c a b ≤ 0`: the result is sorted with respect to
`le` and elements the comparator ties keep their original relative order
(ECMAScript sorts are stable). -/
def jsSort (le : α → α → Bool) : List α → List α
  | [] => []
  | x :: xs => insertLe le x (jsSort le xs)

/-- The whole `MemStorage` object: one JS `Map` per entity kind (modelled as a
list of rows in insertion order) plus the id allocators. -/
structure MemStorage where
  users : List User
  notes : List Note
  comments : List Comment
  downloads : List Download
  likes : List Like
  discussions : List Discussion
  discussionReplies : List DiscussionReply
  follows : List Follow
  currentUserId : Nat
  currentNoteId : Nat
  currentCommentId : Nat
  currentDownloadId : Nat
  currentLikeId : Nat
  currentDiscussionId : Nat
  currentDiscussionReplyId : Nat
  currentFollowId : Nat
deriving DecidableEq

/-- The freshly constructed `MemStorage` (its constructor): all maps empty,
all id counters 1. -/
def initialStorage : MemStorage where
  users := []
  notes := []
  comments := []
  downloads := []
  likes := []
  discussions := []
  discussionReplies := []
  follows := []
  currentUserId := 1
  currentNoteId := 1
  currentCommentId := 1
  currentDownloadId := 1
  currentLikeId := 1
  currentDiscussionId := 1
  currentDiscussionReplyId := 1
  currentFollowId := 1

/-- `MemStorage.getUser`: `this.users.get(id)`. -/
def getUser (s : MemStorage) (id : Nat) : Option User :=
  s.users.find? (fun u => u.id == id)

/-- `MemStorage.getUserByUsername` (case-insensitive find). -/
def getUserByUsername (s : MemStorage) (username : String) : Option User :=
  s.users.find? (fun u => jsToLower u.username == jsToLower username)

/-- `MemStorage.getUserByEmail` (case-insensitive find). -/
def getUserByEmail (s : MemStorage) (email : String) : Option User :=
  s.users.find? (fun u => jsToLower u.email == jsToLower email)

/-- `MemStorage.createUser`: allocates the next user id, stores the user with
`coins: 0`, `avatarUrl: null` and the current time, and returns it. -/
def createUser (s : MemStorage) (insertUser : InsertUser) (now : Nat) :
    MemStorage × User :=
  let id := s.currentUserId
  let user : User :=
    { id := id
      username := insertUser.username
      email := insertUser.email
      password := insertUser.password
      coins := 0
      avatarUrl := none
      createdAt := now }
  ({ s with currentUserId := id + 1, users := mapSet User.id id user s.users },
   user)

/-- `MemStorage.updateUserCoins`: adds `coins` (possibly negative) to the
user's balance with no bounds check; throws if the user does not exist. -/
def updateUserCoins (s : MemStorage) (userId : Nat) (coins : Int) :
    MemStorage × Except String User :=
  match getUser s userId with
  | none => (s, .error "User not found")
  | some user =>
    let updatedUser : User := { user with coins := user.coins + coins }
    ({ s with users := mapSet User.id userId updatedUser s.users },
     .ok updatedUser)

/-- `MemStorage.createNote`: allocates the next note id, stores the note with
zero counters, then awards the upload bonus (10 coins if premium, else 5) to
the owner.  The coin award happens after the note is stored, and a throw from
`updateUserCoins` does not remove the already stored note. -/
def createNote (s : MemStorage) (insertNote : InsertNote) (now : Nat) :
    MemStorage × Except String Note :=
  let id := s.currentNoteId
  let note : Note :=
    { id := id
      title := insertNote.title
      description := insertNote.description
      userId := insertNote.userId
      category := insertNote.category
      fileUrl := insertNote.fileUrl
      fileName := insertNote.fileName
      fileSize := insertNote.fileSize
      fileType := insertNote.fileType
      isPremium := insertNote.isPremium
      coinPrice := insertNote.coinPrice
      previewPages := insertNote.previewPages
      downloads := 0
      likes := 0
      tags := insertNote.tags
      createdAt := now }
  let s1 := { s with currentNoteId := id + 1, notes := mapSet Note.id id note s.notes }
  let coinsToAward : Int := if note.isPremium then 10 else 5
  match updateUserCoins s1 note.userId coinsToAward with
  | (s2, .error e) => (s2, .error e)
  | (s2, .ok _) => (s2, .ok note)

/-- `MemStorage.getNoteById`: `this.notes.get(id)`. -/
def getNoteById (s : MemStorage) (id : Nat) : Option Note :=
  s.notes.find? (fun n => n.id == id)

/-- `MemStorage.getRecentNotes`: all notes sorted by `createdAt` descending
(stable JS sort), truncated to `limit`. -/
def getRecentNotes (s : MemStorage) (limit : Nat) : List Note :=
  (jsSort (fun a b => b.createdAt ≤ a.createdAt) s.notes).take limit

/-- `MemStorage.getTrendingNotes`: notes sorted by `downloads + likes`
descending (stable JS sort), truncated to `limit`. -/
def getTrendingNotes (s : MemStorage) (limit : Nat) : List Note :=
  (jsSort (fun a b => b.downloads + b.likes ≤ a.downloads + a.likes) s.notes).take limit

/-- `MemStorage.updateNoteDownloads`: increments the note's `downloads`
counter by 1; throws if the note does not exist. -/
def updateNoteDownloads (s : MemStorage) (noteId : Nat) :
    MemStorage × Except String Note :=
  match getNoteById s noteId with
  | none => (s, .error "Note not found")
  | some note =>
    let updatedNote : Note := { note with downloads := note.downloads + 1 }
    ({ s with notes := mapSet Note.id noteId updatedNote s.notes }, .ok updatedNote)

/-- `MemStorage.updateNoteLikes`: increments or decrements the note's `likes`
counter, flooring the result at 0 (`Math.max(0, updatedLikes)`); throws if the
note does not exist. -/
def updateNoteLikes (s : MemStorage) (noteId : Nat) (increment : Bool) :
    MemStorage × Except String Note :=
  match getNoteById s noteId with
  | none => (s, .error "Note not found")
  | some note =>
    let updatedLikes : Int := if increment then note.likes + 1 else note.likes - 1
    let updatedNote : Note := { note with likes := max 0 updatedLikes }
    ({ s with notes := mapSet Note.id noteId updatedNote s.notes }, .ok updatedNote)

/-- `MemStorage.recordDownload`: stores a new `Download` row, then increments
the note's `downloads` counter via `updateNoteDownloads`. -/
def recordDownload (s : MemStorage) (insertDownload : InsertDownload) (now : Nat) :
    MemStorage × Except String Download :=
  let id := s.currentDownloadId
  let download : Download :=
    { id := id
      noteId := insertDownload.noteId
      userId := insertDownload.userId
      createdAt := now }
  let s1 := { s with
    currentDownloadId := id + 1
    downloads := mapSet Download.id id download s.downloads }
  match updateNoteDownloads s1 insertDownload.noteId with
  | (s2, .error e) => (s2, .error e)
  | (s2, .ok _) => (s2, .ok download)

/-- `MemStorage.getLikeByUserAndNote`: first like with the (userId, noteId)
pair. -/
def getLikeByUserAndNote (s : MemStorage) (userId noteId : Nat) : Option Like :=
  s.likes.find? (fun l => l.userId == userId && l.noteId == noteId)

/-- `MemStorage.createOrToggleLike`: if a like for the pair exists, delete it
and decrement the counter, returning `none` (unliked); otherwise store a new
like and increment the counter, returning it. -/
def createOrToggleLike (s : MemStorage) (insertLike : InsertLike) (now : Nat) :
    MemStorage × Except String (Option Like) :=
  match getLikeByUserAndNote s insertLike.userId insertLike.noteId with
  | some existingLike =>
    let s1 := { s with likes := mapDelete Like.id existingLike.id s.likes }
    match updateNoteLikes s1 insertLike.noteId false with
    | (s2, .error e) => (s2, .error e)
    | (s2, .ok _) => (s2, .ok none)
  | none =>
    let id := s.currentLikeId
    let like : Like :=
      { id := id
        noteId := insertLike.noteId
        userId := insertLike.userId
        createdAt := now }
    let s1 := { s with currentLikeId := id + 1, likes := mapSet Like.id id like s.likes }
    match updateNoteLikes s1 insertLike.noteId true with
    | (s2, .error e) => (s2, .error e)
    | (s2, .ok _) => (s2, .ok (some like))

/-- `MemStorage.createComment`. -/
def createComment (s : MemStorage) (insertComment : InsertComment) (now : Nat) :
    MemStorage × Comment :=
  let id := s.currentCommentId
  let comment : Comment :=
    { id := id
      noteId := insertComment.noteId
      userId := insertComment.userId
      content := insertComment.content
      createdAt := now }
  ({ s with currentCommentId := id + 1,
            comments := mapSet Comment.id id comment s.comments },
   comment)

/-- `MemStorage.createDiscussion`: stores a discussion with `likes: 0`,
`views: 0`, `isPinned: false`. -/
def createDiscussion (s : MemStorage) (insertDiscussion : InsertDiscussion) (now : Nat) :
    MemStorage × Discussion :=
  let id := s.currentDiscussionId
  let discussion : Discussion :=
    { id := id
      userId := insertDiscussion.userId
      title := insertDiscussion.title
      content := insertDiscussion.content
      category := insertDiscussion.category
      likes := 0
      views := 0
      isPinned := false
      createdAt := now
      updatedAt := now }
  ({ s with currentDiscussionId := id + 1,
            discussions := mapSet Discussion.id id discussion s.discussions },
   discussion)

/-- `MemStorage.getDiscussionById`. -/
def getDiscussionById (s : MemStorage) (id : Nat) : Option Discussion :=
  s.discussions.find? (fun d => d.id == id)

/-- `MemStorage.updateDiscussionViews`: increments `views` by 1; throws if the
discussion does not exist. -/
def updateDiscussionViews (s : MemStorage) (discussionId : Nat) :
    MemStorage × Except String Discussion :=
  match getDiscussionById s discussionId with
  | none => (s, .error "Discussion not found")
  | some discussion =>
    let updatedDiscussion : Discussion := { discussion with views := discussion.views + 1 }
    ({ s with discussions := mapSet Discussion.id discussionId updatedDiscussion s.discussions },
     .ok updatedDiscussion)

/-- `MemStorage.createDiscussionReply`: stores the reply with `likes: 0`.
There is no validation of `parentReplyId` here. -/
def createDiscussionReply (s : MemStorage) (insertReply : InsertDiscussionReply) (now : Nat) :
    MemStorage × DiscussionReply :=
  let id := s.currentDiscussionReplyId
  let reply : DiscussionReply :=
    { id := id
      discussionId := insertReply.discussionId
      userId := insertReply.userId
      content := insertReply.content
      parentReplyId := insertReply.parentReplyId
      attachmentUrl := insertReply.attachmentUrl
      attachmentType := insertReply.attachmentType
      likes := 0
      createdAt := now
      updatedAt := now }
  ({ s with currentDiscussionReplyId := id + 1,
            discussionReplies := mapSet DiscussionReply.id id reply s.discussionReplies },
   reply)

/-- `MemStorage.getDiscussionRepliesByDiscussionId`: replies of the discussion
sorted by `createdAt` ascending (oldest first). -/
def getDiscussionRepliesByDiscussionId (s : MemStorage) (discussionId : Nat) :
    List DiscussionReply :=
  jsSort (fun a b => a.createdAt ≤ b.createdAt)
    (s.discussionReplies.filter (fun r => r.discussionId == discussionId))

/-- `MemStorage.createFollow`. -/
def createFollow (s : MemStorage) (insertFollow : InsertFollow) (now : Nat) :
    MemStorage × Follow :=
  let id := s.currentFollowId
  let follow : Follow :=
    { id := id
      followerId := insertFollow.followerId
      followedId := insertFollow.followedId
      createdAt := now }
  ({ s with currentFollowId := id + 1,
            follows := mapSet Follow.id id follow s.follows },
   follow)

/-- `MemStorage.getFollowByIds`: first follow with the ordered
(followerId, followedId) pair. -/
def getFollowByIds (s : MemStorage) (followerId followedId : Nat) : Option Follow :=
  s.follows.find? (fun f => f.followerId == followerId && f.followedId == followedId)

/-- `MemStorage.removeFollow`: looks the follow up by the pair and deletes it
by id when present. -/
def removeFollow (s : MemStorage) (followerId followedId : Nat) : MemStorage :=
  match getFollowByIds s followerId followedId with
  | some follow => { s with follows := mapDelete Follow.id follow.id s.follows }
  | none => s

/-- `MemStorage.getFollowersByUserId`: the complete stored `User` records of
everyone following `userId` (passwords included). -/
def getFollowersByUserId (s : MemStorage) (userId : Nat) : List User :=
  let followerIds :=
    (s.follows.filter (fun f => f.followedId == userId)).map Follow.followerId
  s.users.filter (fun u => followerIds.contains u.id)

/-- `MemStorage.getFollowingByUserId`: the complete stored `User` records of
everyone `userId` follows (passwords included). -/
def getFollowingByUserId (s : MemStorage) (userId : Nat) : List User :=
  let followingIds :=
    (s.follows.filter (fun f => f.followerId == userId)).map Follow.followedId
  s.users.filter (fun u => followingIds.contains u.id)

/-! ## Route layer
The HTTP handlers from `registerRoutes` / `setupUploadRoutes`, embedded as
state-passing functions.  Authentication (`req.isAuthenticated()`) is handled
by the auth collaborator before a handler body runs; `req.user!.id` is the
`userId` parameter of each route function.  A caught non-Zod exception maps to
the handler's 500 response (`serverError`), with every mutation performed
before the throw persisting. -/

/-- Outcome of `POST /api/notes/:noteId/download`. -/
inductive DownloadResult where
  | noteNotFound
  | userNotFound
  | insufficientCoins (required : Int) (available : Int)
  | success (fileUrl : String) (fileName : String)
  | serverError (msg : String)
deriving DecidableEq

/-- The premium charge block of the download route (routes.ts lines 832-853):
if the note is premium, look the buyer up (404 when absent), fail with
`insufficientCoins` when `user.coins < note.coinPrice`, otherwise debit the
buyer by `coinPrice` and, when the buyer is not the owner, credit the owner. -/
def premiumChargeBlock (s : MemStorage) (note : Note) (userId : Nat) :
    MemStorage × Except DownloadResult Unit :=
  if note.isPremium then
    match getUser s userId with
    | none => (s, .error .userNotFound)
    | some user =>
      if user.coins < note.coinPrice then
        (s, .error (.insufficientCoins note.coinPrice user.coins))
      else
        match updateUserCoins s userId (-note.coinPrice) with
        | (s1, .error e) => (s1, .error (.serverError e))
        | (s1, .ok _) =>
          if userId ≠ note.userId then
            match updateUserCoins s1 note.userId note.coinPrice with
            | (s2, .error e) => (s2, .error (.serverError e))
            | (s2, .ok _) => (s2, .ok ())
          else (s1, .ok ())
  else (s, .ok ())

/-- `POST /api/notes/:noteId/download`: 404 when the note is missing, then the
premium charge block, then `recordDownload`, then the success payload built
from the note fetched at the start. -/
def downloadRoute (s : MemStorage) (noteId userId : Nat) (now : Nat) :
    MemStorage × DownloadResult :=
  match getNoteById s noteId with
  | none => (s, .noteNotFound)
  | some note =>
    match premiumChargeBlock s note userId with
    | (s1, .error r) => (s1, r)
    | (s1, .ok _) =>
      match recordDownload s1 { noteId := noteId, userId := userId } now with
      | (s2, .error e) => (s2, .serverError e)
      | (s2, .ok _) => (s2, .success note.fileUrl note.fileName)

/-- Outcome of `POST /api/notes/:noteId/like`. -/
inductive LikeResult where
  | noteNotFound
  | isLiked (b : Bool)
  | serverError (msg : String)
deriving DecidableEq

/-- `POST /api/notes/:noteId/like`: 404 when the note is missing, then
`createOrToggleLike`; `isLiked` is `!!result`. -/
def likeRoute (s : MemStorage) (noteId userId : Nat) (now : Nat) :
    MemStorage × LikeResult :=
  match getNoteById s noteId with
  | none => (s, .noteNotFound)
  | some _ =>
    match createOrToggleLike s { noteId := noteId, userId := userId } now with
    | (s1, .error e) => (s1, .serverError e)
    | (s1, .ok result) => (s1, .isLiked result.isSome)

/-- Outcome of `POST /api/users/:userId/follow`. -/
inductive FollowResult where
  | cannotFollowSelf
  | userNotFound
  | following (b : Bool)
deriving DecidableEq

/-- `POST /api/users/:userId/follow`: rejects self-follow before anything
else, 404 when the followed user is missing, then toggles the follow edge. -/
def followRoute (s : MemStorage) (followerId followedId : Nat) (now : Nat) :
    MemStorage × FollowResult :=
  if followerId = followedId then (s, .cannotFollowSelf)
  else
    match getUser s followedId with
    | none => (s, .userNotFound)
    | some _ =>
      match getFollowByIds s followerId followedId with
      | some _ => (removeFollow s followerId followedId, .following false)
      | none =>
        ((createFollow s { followerId := followerId, followedId := followedId } now).1,
         .following true)

/-- Outcome of `POST /api/notes/:noteId/comments`. -/
inductive CommentResult where
  | noteNotFound
  | created (c : Comment)
deriving DecidableEq

/-- `POST /api/notes/:noteId/comments`: 404 when the note is missing, then
`createComment`. -/
def commentRoute (s : MemStorage) (noteId userId : Nat) (content : String) (now : Nat) :
    MemStorage × CommentResult :=
  match getNoteById s noteId with
  | none => (s, .noteNotFound)
  | some _ =>
    let (s1, comment) :=
      createComment s { noteId := noteId, userId := userId, content := content } now
    (s1, .created comment)

/-- `POST /api/discussions`: validates the payload shape and stores the
discussion. -/
def createDiscussionRoute (s : MemStorage) (userId : Nat)
    (title content category : String) (now : Nat) : MemStorage × Discussion :=
  createDiscussion s
    { userId := userId, title := title, content := content, category := category } now

/-- Outcome of `GET /api/discussions/:id`. -/
inductive ViewDiscussionResult where
  | notFound
  | ok (d : Discussion)
deriving DecidableEq

/-- `GET /api/discussions/:id`: 404 when missing; otherwise increments the
view counter and responds with the discussion fetched before the increment. -/
def viewDiscussionRoute (s : MemStorage) (id : Nat) :
    MemStorage × ViewDiscussionResult :=
  match getDiscussionById s id with
  | none => (s, .notFound)
  | some discussion =>
    ((updateDiscussionViews s id).1, .ok discussion)

/-- Outcome of `POST /api/discussions/:discussionId/replies`. -/
inductive ReplyResult where
  | discussionNotFound
  | created (r : DiscussionReply)
deriving DecidableEq

/-- `POST /api/discussions/:discussionId/replies`: 404 when the discussion is
missing, then `createDiscussionReply`.  The handler performs no validation of
`parentReplyId`. -/
def createReplyRoute (s : MemStorage) (discussionId userId : Nat)
    (content : String) (parentReplyId : Option Nat)
    (attachmentUrl attachmentType : Option String) (now : Nat) :
    MemStorage × ReplyResult :=
  match getDiscussionById s discussionId with
  | none => (s, .discussionNotFound)
  | some _ =>
    let (s1, reply) := createDiscussionReply s
      { discussionId := discussionId, userId := userId, content := content
        parentReplyId := parentReplyId, attachmentUrl := attachmentUrl
        attachmentType := attachmentType } now
    (s1, .created reply)

/-- The extension allow-list from schema.ts (`ALLOWED_FILE_TYPES`). -/
def allowedFileTypes : List String :=
  ["pdf", "docx", "txt", "ppt", "pptx", "zip", "csv", "xlsx", "json", "md", "tex"]

/-- Characters after the last dot of a name, or `none` when it has no dot. -/
def extAfterLastDot : List Char → Option (List Char)
  | [] => none
  | c :: rest =>
    match extAfterLastDot rest with
    | some t => some t
    | none => if c = '.' then some rest else none

/-- Node `path.extname(f).slice(1)`: the text after the last dot, empty when
there is no dot or when the only dot is the leading dot of a dotfile. -/
def fileExtOf (fileName : String) : String :=
  match fileName.toList with
  | [] => ""
  | c0 :: rest =>
    if c0 = '.' then
      match extAfterLastDot rest with
      | some t => String.mk t
      | none => ""
    else
      match extAfterLastDot (c0 :: rest) with
      | some t => String.mk t
      | none => ""

/-- The file payload of `POST /api/notes` (`fileData` plus the note fields the
client sends; `insertNoteSchema.parse` checks only the field types, so
`coinPrice` is an arbitrary integer). -/
structure UploadRequest where
  title : String
  description : String
  category : String
  isPremium : Bool
  coinPrice : Int
  previewPages : Int
  tags : List String
  fileName : String
  fileSize : Int
deriving DecidableEq

/-- Outcome of `POST /api/notes`. -/
inductive UploadResult where
  | fileDataRequired
  | fileTypeNotSupported
  | created (n : Note)
  | serverError (msg : String)
deriving DecidableEq

/-- `POST /api/notes` (upload.ts): requires file data, validates the file
extension against the allow-list, builds the simulated `fileUrl` from a random
unique id, validates the field types with `insertNoteSchema` (which imposes no
range constraint on `coinPrice`), and stores the note via
`storage.createNote`. -/
def uploadNoteRoute (s : MemStorage) (userId : Nat) (req : UploadRequest)
    (uniqueId : String) (now : Nat) : MemStorage × UploadResult :=
  if req.fileName = "" then (s, .fileDataRequired)
  else
    let fileExt := jsToLower (fileExtOf req.fileName)
    if ¬ allowedFileTypes.contains fileExt then (s, .fileTypeNotSupported)
    else
      let fileUrl := "/api/files/" ++ uniqueId ++ "-" ++ req.fileName
      match createNote s
        { title := req.title, description := req.description, userId := userId
          category := req.category, fileUrl := fileUrl, fileName := req.fileName
          fileSize := req.fileSize, fileType := fileExt
          isPremium := req.isPremium, coinPrice := req.coinPrice
          previewPages := req.previewPages, tags := req.tags } now with
      | (s1, .error e) => (s1, .serverError e)
      | (s1, .ok note) => (s1, .created note)

/-- The public shape of a user in the `GET /api/users/:userId` response: the
stored record with the `password` field destructured away. -/
structure PublicUser where
  id : Nat
  username : String
  email : String
  coins : Int
  avatarUrl : Option String
  createdAt : Nat
deriving DecidableEq

/-- Drop the `password` field from a stored user
(`const { password, ...userWithoutPassword } = user`). -/
def stripUser (u : User) : PublicUser :=
  { id := u.id, username := u.username, email := u.email
    coins := u.coins, avatarUrl := u.avatarUrl, createdAt := u.createdAt }

/-- `GET /api/users/:userId`: looks the user up and strips the password from
the response. -/
def getUserRoute (s : MemStorage) (userId : Nat) : Option PublicUser :=
  (getUser s userId).map stripUser

/-- `GET /api/users/:userId/followers`: responds with the storage result
directly — the complete `User` records. -/
def followersRoute (s : MemStorage) (userId : Nat) : List User :=
  getFollowersByUserId s userId

/-- `GET /api/users/:userId/following`: responds with the storage result
directly — the complete `User` records. -/
def followingRoute (s : MemStorage) (userId : Nat) : List User :=
  getFollowingByUserId s userId

/-! ## Reachability
The core operations (spec sections 4.1-4.6) as a single step type.  User
creation is the Entity Store `create(User, …)` operation (`createUser`); every
other step is the corresponding route-level operation, i.e. the full
check-then-mutate sequence the handler performs. -/

/-- One invocation of a core operation, with the wall-clock time `now` at
which it runs. -/
inductive Op where
  | register (insertUser : InsertUser) (now : Nat)
  | upload (userId : Nat) (req : UploadRequest) (uniqueId : String) (now : Nat)
  | download (noteId userId now : Nat)
  | like (noteId userId now : Nat)
  | follow (followerId followedId now : Nat)
  | comment (noteId userId : Nat) (content : String) (now : Nat)
  | newDiscussion (userId : Nat) (title content category : String) (now : Nat)
  | viewDiscussion (id : Nat)
  | reply (discussionId userId : Nat) (content : String) (parentReplyId : Option Nat)
      (attachmentUrl attachmentType : Option String) (now : Nat)
deriving DecidableEq

/-- The state after running one core operation (responses discarded). -/
def applyOp (s : MemStorage) : Op → MemStorage
  | .register insertUser now => (createUser s insertUser now).1
  | .upload userId req uniqueId now => (uploadNoteRoute s userId req uniqueId now).1
  | .download noteId userId now => (downloadRoute s noteId userId now).1
  | .like noteId userId now => (likeRoute s noteId userId now).1
  | .follow followerId followedId now => (followRoute s followerId followedId now).1
  | .comment noteId userId content now => (commentRoute s noteId userId content now).1
  | .newDiscussion userId title content category now =>
      (createDiscussionRoute s userId title content category now).1
  | .viewDiscussion id => (viewDiscussionRoute s id).1
  | .reply discussionId userId content parentReplyId attachmentUrl attachmentType now =>
      (createReplyRoute s discussionId userId content parentReplyId
        attachmentUrl attachmentType now).1

/-- States reachable from the freshly constructed store by core operations. -/
inductive Reachable : MemStorage → Prop
  | init : Reachable initialStorage
  | step {s : MemStorage} (op : Op) : Reachable s → Reachable (applyOp s op)

/-! ## The reachability invariant -/

/-- Number of stored `Download` rows referencing a note. -/
def downloadsCount (downloads : List Download) (noteId : Nat) : Nat :=
  (downloads.filter (fun d => d.noteId == noteId)).length

/-- Number of stored `Like` rows referencing a note. -/
def likesCount (likes : List Like) (noteId : Nat) : Nat :=
  (likes.filter (fun l => l.noteId == noteId)).length

/-- Invariant maintained by every core operation: ids are strictly increasing
along each map (and below the allocator), every `Like`/`Download` row
references a stored note, at most one `Like` per (user, note) pair and one
`Follow` per ordered pair exist, no self-follows are stored, and the
denormalized `downloads`/`likes` counters of every note agree with the row
counts. -/
structure Inv (s : MemStorage) : Prop where
  notes_sorted : s.notes.Pairwise (fun a b => a.id < b.id)
  notes_lt : ∀ n ∈ s.notes, n.id < s.currentNoteId
  likes_sorted : s.likes.Pairwise (fun a b => a.id < b.id)
  likes_lt : ∀ l ∈ s.likes, l.id < s.currentLikeId
  downloads_lt : ∀ d ∈ s.downloads, d.id < s.currentDownloadId
  follows_lt : ∀ f ∈ s.follows, f.id < s.currentFollowId
  like_note : ∀ l ∈ s.likes, ∃ n ∈ s.notes, n.id = l.noteId
  download_note : ∀ d ∈ s.downloads, ∃ n ∈ s.notes, n.id = d.noteId
  like_unique : s.likes.Pairwise (fun a b => ¬(a.userId = b.userId ∧ a.noteId = b.noteId))
  follow_unique :
    s.follows.Pairwise (fun a b => ¬(a.followerId = b.followerId ∧ a.followedId = b.followedId))
  follow_no_self : ∀ f ∈ s.follows, f.followerId ≠ f.followedId
  counters : ∀ n ∈ s.notes,
    n.downloads = (downloadsCount s.downloads n.id : Int) ∧
    n.likes = (likesCount s.likes n.id : Int)

/-- Two states agreeing on every field the invariant talks about. -/
def EqCore (s' s : MemStorage) : Prop :=
  s'.notes = s.notes ∧ s'.currentNoteId = s.currentNoteId ∧
  s'.likes = s.likes ∧ s'.currentLikeId = s.currentLikeId ∧
  s'.downloads = s.downloads ∧ s'.currentDownloadId = s.currentDownloadId ∧
  s'.follows = s.follows ∧ s'.currentFollowId = s.currentFollowId

/-- A concrete upload request used by the witnesses. -/
def wReq : UploadRequest :=
  { title := "t", description := "d", category := "c", isPremium := false
    coinPrice := 0, previewPages := 0, tags := [], fileName := "notes.pdf", fileSize := 1 }

/-- Register a user, upload a note, download it once. -/
def wState1 : MemStorage :=
  applyOp (applyOp (applyOp initialStorage
    (Op.register { username := "ann", email := "ann@example.com", password := "pw" } 0))
    (Op.upload 1 wReq "u1" 1)) (Op.download 1 1 2)

/-- The note stored in `wState1` after one download. -/
def wNote1 : Note :=
  { id := 1, title := "t", description := "d", userId := 1, category := "c"
    fileUrl := "/api/files/u1-notes.pdf", fileName := "notes.pdf", fileSize := 1
    fileType := "pdf", isPremium := false, coinPrice := 0, previewPages := 0
    downloads := 1, likes := 0, tags := [], createdAt := 1 }

/-- A concrete state for the C2 witness: user 1 owns premium note 1 priced at
5 coins, user 2 holds 7 coins. -/
def wState2 : MemStorage :=
  { initialStorage with
    users := [
      { id := 1, username := "ann", email := "a@x", password := "p1", coins := 0,
        avatarUrl := none, createdAt := 0 },
      { id := 2, username := "bob", email := "b@x", password := "p2", coins := 7,
        avatarUrl := none, createdAt := 0 }]
    notes := [
      { id := 1, title := "t", description := "d", userId := 1, category := "c",
        fileUrl := "/u", fileName := "f.pdf", fileSize := 1, fileType := "pdf",
        isPremium := true, coinPrice := 5, previewPages := 0, downloads := 0,
        likes := 0, tags := [], createdAt := 0 }]
    currentUserId := 3
    currentNoteId := 2 }

/-! ## Concrete traces exhibiting code bugs -/

/-- An upload request for a premium note with a negative price — accepted by
`insertNoteSchema`, which has no range constraint. -/
def badPremiumReq : UploadRequest :=
  { title := "t", description := "d", category := "c", isPremium := true
    coinPrice := -100, previewPages := 0, tags := [], fileName := "f.pdf", fileSize := 1 }

/-- Register two users, let user 1 upload a premium note priced at -100 coins,
then let user 2 download it: the premium charge credits the buyer 100 coins and
debits the seller 100 coins. -/
def c3State : MemStorage :=
  applyOp (applyOp (applyOp (applyOp initialStorage
    (Op.register { username := "ann", email := "a@x", password := "p1" } 0))
    (Op.register { username := "bob", email := "b@x", password := "p2" } 0))
    (Op.upload 1 badPremiumReq "u" 1))
    (Op.download 1 2 2)

def c8Pre : MemStorage :=
  applyOp initialStorage
    (Op.register { username := "ann", email := "a@x", password := "p1" } 0)

/-- A premium upload priced at -5 coins. -/
def negPriceReq : UploadRequest :=
  { title := "t", description := "d", category := "c", isPremium := true
    coinPrice := -5, previewPages := 0, tags := [], fileName := "f.pdf", fileSize := 1 }

def c8State : MemStorage := applyOp c8Pre (Op.upload 1 negPriceReq "u" 1)

/-- The note the upload route stores for `negPriceReq`. -/
def c8Note : Note :=
  { id := 1, title := "t", description := "d", userId := 1, category := "c"
    fileUrl := "/api/files/u-f.pdf", fileName := "f.pdf", fileSize := 1
    fileType := "pdf", isPremium := true, coinPrice := -5, previewPages := 0
    downloads := 0, likes := 0, tags := [], createdAt := 1 }

def c5S1 : MemStorage :=
  applyOp initialStorage
    (Op.register { username := "ann", email := "a@x", password := "p" } 0)

def c5S2 : MemStorage := applyOp c5S1 (Op.newDiscussion 1 "t1" "c1" "cat" 1)

def c5S3 : MemStorage := applyOp c5S2 (Op.reply 1 1 "r1" none none none 2)

def c5S4 : MemStorage := applyOp c5S3 (Op.newDiscussion 1 "t2" "c2" "cat" 3)

def c5State : MemStorage := applyOp c5S4 (Op.reply 2 1 "r2" (some 1) none none 4)

/-- The cross-discussion reply the route stores. -/
def c5Reply2 : DiscussionReply :=
  { id := 2, discussionId := 2, userId := 1, content := "r2", parentReplyId := some 1
    attachmentUrl := none, attachmentType := none, likes := 0, createdAt := 4, updatedAt := 4 }

/-! ## Follow toggle -/

/-- The stored Follow rows for an ordered (follower, followed) pair. -/
def followsForPair (s : MemStorage) (followerId followedId : Nat) : List Follow :=
  s.follows.filter (fun f => f.followerId == followerId && f.followedId == followedId)

def c6State : MemStorage :=
  applyOp (applyOp initialStorage
    (Op.register { username := "ann", email := "a@x", password := "p1" } 0))
    (Op.register { username := "bob", email := "b@x", password := "p2" } 0)

/-! ## Recent ordering -/

/-- Descending by creation time, ties by id ascending (creation order). -/
def recentOrder (a b : Note) : Prop :=
  b.createdAt < a.createdAt ∨ (a.createdAt = b.createdAt ∧ a.id < b.id)

def c7State : MemStorage :=
  applyOp (applyOp (applyOp initialStorage
    (Op.register { username := "ann", email := "a@x", password := "p" } 0))
    (Op.upload 1 wReq "a" 5)) (Op.upload 1 wReq "b" 5)

/-! ## Credential exposure in the social graph -/

/-- Overwrite one user's stored password credential. -/
def setUserPassword (s : MemStorage) (uid : Nat) (p : String) : MemStorage :=
  { s with users := (s.users.map
      (fun u => if u.id = uid then { u with password := p } else u)) }

/-- Register two users and let user 2 follow user 1. -/
def c9State : MemStorage :=
  applyOp (applyOp (applyOp initialStorage
    (Op.register { username := "ann", email := "a@x", password := "p1" } 0))
    (Op.register { username := "bob", email := "b@x", password := "p2" } 0))
    (Op.follow 2 1 3)

def c9User2 : User :=
  { id := 2, username := "bob", email := "b@x", password := "p2", coins := 0
    avatarUrl := none, createdAt := 0 }

def c10Insert : InsertNote :=
  { title := "t", description := "d", userId := 7, category := "c", fileUrl := "/u"
    fileName := "f.pdf", fileSize := 1, fileType := "pdf", isPremium := false
    coinPrice := 0, previewPages := 0, tags := [] }

/-! ## Helper lemmas about the JS `Map` model, `find?` and counting -/

section MapLemmas
variable {α : Type} {keyOf : α → Nat} {k : Nat} {v : α} {l : List α}
theorem mapSet_of_forall_ne (h : ∀ x ∈ l, keyOf x ≠ k) :
    mapSet keyOf k v l = l ++ [v] := by
  unfold mapSet
  rw [if_neg]
  simp only [List.any_eq_true, beq_iff_eq, not_exists, not_and]
  intro x hx
  exact h x hx
theorem mapSet_of_exists (h : ∃ x ∈ l, keyOf x = k) :
    mapSet keyOf k v l = l.map (fun x => if keyOf x == k then v else x) := by
  unfold mapSet
  rw [if_pos]
  simp only [List.any_eq_true, beq_iff_eq]
  exact h
theorem mem_of_mem_mapSet (hy : y ∈ mapSet keyOf k v l) : y = v ∨ y ∈ l := by
  unfold mapSet at hy
  by_cases hc : l.any (fun x => keyOf x == k) = true
  · rw [if_pos hc] at hy
    rcases List.mem_map.1 hy with ⟨x, hx, hxy⟩
    by_cases hk : keyOf x == k
    · left; rw [if_pos hk] at hxy; exact hxy.symm
    · right; rw [if_neg hk] at hxy; exact hxy ▸ hx
  · rw [if_neg hc] at hy
    rcases List.mem_append.1 hy with h | h
    · exact Or.inr h
    · exact Or.inl (List.mem_singleton.1 h)
theorem map_keyOf_mapSet (hv : keyOf v = k) (h : ∃ x ∈ l, keyOf x = k) :
    (mapSet keyOf k v l).map keyOf = l.map keyOf := by
  rw [mapSet_of_exists h, List.map_map]
  apply List.map_congr_left
  intro x _
  simp only [Function.comp_apply]
  by_cases hk : keyOf x == k
  · rw [if_pos hk, hv, eq_of_beq hk]
  · rw [if_neg hk]
theorem find?_append_none {p : α → Bool} {l₁ l₂ : List α}
    (h : l₁.find? p = none) : (l₁ ++ l₂).find? p = l₂.find? p := by
  induction l₁ with
  | nil => rfl
  | cons a t ih =>
    cases hp : p a with
    | true => simp [List.find?_cons, hp] at h
    | false =>
      simp only [List.find?_cons, hp] at h
      simp only [List.cons_append, List.find?_cons, hp]
      exact ih h
theorem find?_mapSet_self (hv : keyOf v = k) :
    (mapSet keyOf k v l).find? (fun x => keyOf x == k) = some v := by
  have hvb : (keyOf v == k) = true := by simpa using hv
  unfold mapSet
  by_cases hc : l.any (fun x => keyOf x == k) = true
  · rw [if_pos hc]
    rcases List.any_eq_true.1 hc with ⟨x, hx, hxk⟩
    clear hc
    induction l with
    | nil => cases hx
    | cons a t ih =>
      cases ha : (keyOf a == k) with
      | true =>
        have hif : (if (keyOf a == k) = true then v else a) = v := by simp [ha]
        simp only [List.map_cons, hif, List.find?_cons, hvb]
      | false =>
        have hif : (if (keyOf a == k) = true then v else a) = a := by simp [ha]
        rcases List.mem_cons.1 hx with rfl | hx'
        · rw [hxk] at ha; cases ha
        · simp only [List.map_cons, hif]
          simp only [List.find?_cons, ha]
          exact ih hx'
  · rw [if_neg hc]
    have hnone : l.find? (fun x => keyOf x == k) = none := by
      rw [List.find?_eq_none]
      intro x hx
      simp only [List.any_eq_true, not_exists, not_and] at hc
      exact fun hb => hc x hx hb
    rw [find?_append_none hnone]
    simp only [List.find?_cons, hvb]
theorem find?_mapSet_ne (hv : keyOf v = k) {k' : Nat} (hne : k' ≠ k) :
    (mapSet keyOf k v l).find? (fun x => keyOf x == k') =
      l.find? (fun x => keyOf x == k') := by
  have hvk : (keyOf v == k') = false := by
    simp only [beq_eq_false_iff_ne, ne_eq, hv]
    exact fun h => hne h.symm
  unfold mapSet
  by_cases hc : l.any (fun x => keyOf x == k) = true
  · rw [if_pos hc]
    clear hc
    induction l with
    | nil => rfl
    | cons a t ih =>
      cases ha : (keyOf a == k) with
      | true =>
        have hif : (if (keyOf a == k) = true then v else a) = v := by simp [ha]
        have h2 : (keyOf a == k') = false := by
          simp only [beq_eq_false_iff_ne, ne_eq, eq_of_beq ha]
          exact fun h => hne h.symm
        simp only [List.map_cons, hif, List.find?_cons, hvk, h2]
        exact ih
      | false =>
        have hif : (if (keyOf a == k) = true then v else a) = a := by simp [ha]
        cases ha' : (keyOf a == k') with
        | true => simp only [List.map_cons, hif, List.find?_cons, ha']
        | false =>
          simp only [List.map_cons, hif, List.find?_cons, ha']
          exact ih
  · rw [if_neg hc]
    induction l with
    | nil => simp only [List.nil_append, List.find?_cons, hvk, List.find?_nil]
    | cons a t ih =>
      cases ha' : (keyOf a == k') with
      | true => simp only [List.cons_append, List.find?_cons, ha']
      | false =>
        simp only [List.cons_append, List.find?_cons, ha']
        exact ih (by
          simp only [List.any_eq_true, not_exists, not_and] at hc ⊢
          exact fun x hx => hc x (List.mem_cons_of_mem a hx))
theorem mapDelete_of_forall_ne (h : ∀ x ∈ l, keyOf x ≠ k) :
    mapDelete keyOf k l = l := by
  unfold mapDelete
  apply List.filter_eq_self.2
  intro x hx
  simp only [bne_iff_ne, ne_eq]
  exact h x hx
theorem mem_of_mem_mapDelete (hy : y ∈ mapDelete keyOf k l) :
    y ∈ l ∧ keyOf y ≠ k := by
  unfold mapDelete at hy
  have := List.mem_filter.1 hy
  exact ⟨this.1, by simpa using this.2⟩
theorem mapDelete_sublist : List.Sublist (mapDelete keyOf k l) l :=
  List.filter_sublist l
theorem key_inj_of_pairwise (hpw : l.Pairwise (fun a b => keyOf a < keyOf b))
    {x y : α} (hx : x ∈ l) (hy : y ∈ l) (hk : keyOf x = keyOf y) : x = y := by
  induction l with
  | nil => cases hx
  | cons a t ih =>
    rcases List.pairwise_cons.1 hpw with ⟨ha, ht⟩
    rcases List.mem_cons.1 hx with rfl | hx' <;>
      rcases List.mem_cons.1 hy with rfl | hy'
    · rfl
    · exact absurd hk (Nat.ne_of_lt (ha _ hy'))
    · exact absurd hk.symm (Nat.ne_of_lt (ha _ hx'))
    · exact ih ht hx' hy'
theorem find?_key_of_mem (hpw : l.Pairwise (fun a b => keyOf a < keyOf b))
    {x : α} (hx : x ∈ l) : l.find? (fun y => keyOf y == keyOf x) = some x := by
  induction l with
  | nil => cases hx
  | cons a t ih =>
    rcases List.pairwise_cons.1 hpw with ⟨ha, ht⟩
    rcases List.mem_cons.1 hx with rfl | hx'
    · simp [List.find?_cons]
    · have hb : (keyOf a == keyOf x) = false := by
        simp [Nat.ne_of_lt (ha _ hx')]
      simp only [List.find?_cons, hb]
      exact ih ht hx'
theorem find?_key_eq_none (h : ∀ x ∈ l, keyOf x ≠ k) :
    l.find? (fun y => keyOf y == k) = none := by
  rw [List.find?_eq_none]
  intro x hx
  simpa using h x hx
/-- Length of a filtered list after deleting one element by its key, when
keys are strictly increasing along the list. -/
theorem length_filter_mapDelete (p : α → Bool)
    (hpw : l.Pairwise (fun a b => keyOf a < keyOf b)) {x : α} (hx : x ∈ l) :
    (l.filter p).length =
      ((mapDelete keyOf (keyOf x) l).filter p).length + (if p x then 1 else 0) := by
  induction l with
  | nil => cases hx
  | cons a t ih =>
    rcases List.pairwise_cons.1 hpw with ⟨ha, ht⟩
    rcases List.mem_cons.1 hx with rfl | hx'
    · have hdel : mapDelete keyOf (keyOf x) (x :: t) = t := by
        unfold mapDelete
        rw [List.filter_cons, if_neg (by simp), List.filter_eq_self.2]
        intro y hy
        simp only [bne_iff_ne, ne_eq]
        exact fun h => Nat.ne_of_lt (ha _ hy) h.symm
      rw [hdel, List.filter_cons]
      by_cases hp : p x
      · rw [if_pos hp, if_pos hp, List.length_cons, Nat.add_comm]
      · rw [if_neg hp, if_neg hp, Nat.add_zero]
    · have hne : keyOf a ≠ keyOf x := Nat.ne_of_lt (ha _ hx')
      have hdel : mapDelete keyOf (keyOf x) (a :: t) =
          a :: mapDelete keyOf (keyOf x) t := by
        unfold mapDelete
        rw [List.filter_cons, if_pos (by simpa using hne)]
      rw [hdel, List.filter_cons, List.filter_cons]
      by_cases hp : p a
      · rw [if_pos hp, if_pos hp]
        simp only [List.length_cons]
        rw [ih ht hx']
        omega
      · rw [if_neg hp, if_neg hp]
        exact ih ht hx'
end MapLemmas

/-! ## Helper lemmas about the stable sort -/

section SortLemmas
variable {α : Type} {le : α → α → Bool}
theorem insertLe_perm (x : α) (t : List α) : (insertLe le x t).Perm (x :: t) := by
  induction t with
  | nil => exact List.Perm.refl _
  | cons y ys ih =>
    unfold insertLe
    by_cases h : le x y
    · rw [if_pos h]
    · rw [if_neg h]
      exact (ih.cons y).trans (List.Perm.swap x y ys)
theorem jsSort_perm (l : List α) : (jsSort le l).Perm l := by
  induction l with
  | nil => exact List.Perm.refl _
  | cons x xs ih =>
    exact (insertLe_perm x (jsSort le xs)).trans (ih.cons x)
theorem mem_insertLe {x y : α} {t : List α} :
    y ∈ insertLe le x t ↔ y = x ∨ y ∈ t := by
  constructor
  · intro hy
    have := (insertLe_perm x t).mem_iff.1 hy
    simpa using this
  · intro hy
    apply (insertLe_perm x t).mem_iff.2
    simpa using hy
/-- Stability of `jsSort` for a descending numeric key: when the input has a
strictly increasing tie-break key `idf`, the output is pairwise ordered by
key descending with ties ordered by `idf` ascending. -/
theorem jsSort_desc_stable (key idf : α → Nat) (l : List α)
    (h : l.Pairwise (fun a b => idf a < idf b)) :
    (jsSort (fun a b => key b ≤ key a) l).Pairwise
      (fun a b => key b < key a ∨ (key a = key b ∧ idf a < idf b)) := by
  induction l with
  | nil => exact List.Pairwise.nil
  | cons x xs ih =>
    rcases List.pairwise_cons.1 h with ⟨hx, hxs⟩
    have hsorted := ih hxs
    have hmem : ∀ y ∈ jsSort (fun a b => key b ≤ key a) xs, idf x < idf y := by
      intro y hy
      exact hx y ((jsSort_perm xs).mem_iff.1 hy)
    unfold jsSort
    revert hsorted hmem
    generalize jsSort (fun a b => key b ≤ key a) xs = t
    intro hsorted hmem
    induction t with
    | nil => simp [insertLe]
    | cons y ys iht =>
      rcases List.pairwise_cons.1 hsorted with ⟨hy, hys⟩
      unfold insertLe
      by_cases hle : (key y ≤ key x : Bool)
      · rw [if_pos hle]
        have hkey : key y ≤ key x := by simpa using hle
        apply List.pairwise_cons.2
        refine ⟨?_, hsorted⟩
        intro z hz
        have hidf : idf x < idf z := hmem z hz
        have hkz : key z ≤ key x := by
          rcases List.mem_cons.1 hz with rfl | hz'
          · exact hkey
          · rcases hy z hz' with h1 | h1
            · exact le_trans (Nat.le_of_lt h1) hkey
            · exact le_trans (Nat.le_of_eq h1.1.symm) hkey
        rcases Nat.lt_or_ge (key z) (key x) with h1 | h1
        · exact Or.inl h1
        · exact Or.inr ⟨Nat.le_antisymm h1 hkz, hidf⟩
      · rw [if_neg hle]
        have hkey : key x < key y := by
          simpa using Nat.lt_of_not_le (by simpa using hle)
        apply List.pairwise_cons.2
        constructor
        · intro z hz
          rcases mem_insertLe.1 hz with rfl | hz'
          · exact Or.inl hkey
          · exact hy z hz'
        · exact iht hys (fun z hz => hmem z (List.mem_cons_of_mem y hz))
theorem jsSort_length (l : List α) : (jsSort le l).length = l.length :=
  (jsSort_perm l).length_eq
end SortLemmas

theorem eqCore_refl (s : MemStorage) : EqCore s s :=
  ⟨rfl, rfl, rfl, rfl, rfl, rfl, rfl, rfl⟩

theorem eqCore_trans {s₁ s₂ s₃ : MemStorage} (a : EqCore s₁ s₂) (b : EqCore s₂ s₃) :
    EqCore s₁ s₃ := by
  obtain ⟨a1, a2, a3, a4, a5, a6, a7, a8⟩ := a
  obtain ⟨b1, b2, b3, b4, b5, b6, b7, b8⟩ := b
  exact ⟨a1.trans b1, a2.trans b2, a3.trans b3, a4.trans b4,
         a5.trans b5, a6.trans b6, a7.trans b7, a8.trans b8⟩

theorem inv_of_eqCore {s' s : MemStorage} (he : EqCore s' s) (h : Inv s) : Inv s' := by
  obtain ⟨h1, h2, h3, h4, h5, h6, h7, h8⟩ := he
  refine ⟨?_, ?_, ?_, ?_, ?_, ?_, ?_, ?_, ?_, ?_, ?_, ?_⟩
  · rw [h1]; exact h.notes_sorted
  · rw [h1, h2]; exact h.notes_lt
  · rw [h3]; exact h.likes_sorted
  · rw [h3, h4]; exact h.likes_lt
  · rw [h5, h6]; exact h.downloads_lt
  · rw [h7, h8]; exact h.follows_lt
  · rw [h3, h1]; exact h.like_note
  · rw [h5, h1]; exact h.download_note
  · rw [h3]; exact h.like_unique
  · rw [h7]; exact h.follow_unique
  · rw [h7]; exact h.follow_no_self
  · rw [h1, h3, h5]; exact h.counters

theorem eqCore_updateUserCoins (s : MemStorage) (userId : Nat) (coins : Int) :
    EqCore (updateUserCoins s userId coins).1 s := by
  unfold updateUserCoins
  cases getUser s userId with
  | none => exact eqCore_refl s
  | some user => exact ⟨rfl, rfl, rfl, rfl, rfl, rfl, rfl, rfl⟩

theorem eqCore_createUser (s : MemStorage) (iu : InsertUser) (now : Nat) :
    EqCore (createUser s iu now).1 s :=
  ⟨rfl, rfl, rfl, rfl, rfl, rfl, rfl, rfl⟩

theorem eqCore_premiumChargeBlock (s : MemStorage) (note : Note) (userId : Nat) :
    EqCore (premiumChargeBlock s note userId).1 s := by
  unfold premiumChargeBlock
  by_cases hp : note.isPremium = true
  · simp only [if_pos hp]
    cases getUser s userId with
    | none => exact eqCore_refl s
    | some user =>
      by_cases hlt : user.coins < note.coinPrice
      · simp only [if_pos hlt]
        exact eqCore_refl s
      · simp only [if_neg hlt]
        rcases h1 : updateUserCoins s userId (-note.coinPrice) with ⟨s1, r1⟩
        have he1 : EqCore s1 s := by
          have := eqCore_updateUserCoins s userId (-note.coinPrice)
          rwa [h1] at this
        cases r1 with
        | error e => exact he1
        | ok u =>
          by_cases hne : userId ≠ note.userId
          · simp only [if_pos hne]
            rcases h2 : updateUserCoins s1 note.userId note.coinPrice with ⟨s2, r2⟩
            have he2 : EqCore s2 s1 := by
              have := eqCore_updateUserCoins s1 note.userId note.coinPrice
              rwa [h2] at this
            cases r2 with
            | error e => exact eqCore_trans he2 he1
            | ok u2 => exact eqCore_trans he2 he1
          · simp only [if_neg hne]
            exact he1
  · simp only [if_neg hp]
    exact eqCore_refl s

theorem eqCore_createComment (s : MemStorage) (ic : InsertComment) (now : Nat) :
    EqCore (createComment s ic now).1 s :=
  ⟨rfl, rfl, rfl, rfl, rfl, rfl, rfl, rfl⟩

theorem eqCore_createDiscussion (s : MemStorage) (idis : InsertDiscussion) (now : Nat) :
    EqCore (createDiscussion s idis now).1 s :=
  ⟨rfl, rfl, rfl, rfl, rfl, rfl, rfl, rfl⟩

theorem eqCore_updateDiscussionViews (s : MemStorage) (discussionId : Nat) :
    EqCore (updateDiscussionViews s discussionId).1 s := by
  unfold updateDiscussionViews
  cases getDiscussionById s discussionId with
  | none => exact eqCore_refl s
  | some d => exact ⟨rfl, rfl, rfl, rfl, rfl, rfl, rfl, rfl⟩

theorem eqCore_createDiscussionReply (s : MemStorage) (ir : InsertDiscussionReply) (now : Nat) :
    EqCore (createDiscussionReply s ir now).1 s :=
  ⟨rfl, rfl, rfl, rfl, rfl, rfl, rfl, rfl⟩

theorem eqCore_commentRoute (s : MemStorage) (noteId userId : Nat) (content : String) (now : Nat) :
    EqCore (commentRoute s noteId userId content now).1 s := by
  unfold commentRoute
  cases getNoteById s noteId with
  | none => exact eqCore_refl s
  | some n => exact eqCore_createComment s _ now

theorem eqCore_viewDiscussionRoute (s : MemStorage) (id : Nat) :
    EqCore (viewDiscussionRoute s id).1 s := by
  unfold viewDiscussionRoute
  cases getDiscussionById s id with
  | none => exact eqCore_refl s
  | some d => exact eqCore_updateDiscussionViews s id

theorem eqCore_createReplyRoute (s : MemStorage) (discussionId userId : Nat)
    (content : String) (parentReplyId : Option Nat)
    (attachmentUrl attachmentType : Option String) (now : Nat) :
    EqCore (createReplyRoute s discussionId userId content parentReplyId
      attachmentUrl attachmentType now).1 s := by
  unfold createReplyRoute
  cases getDiscussionById s discussionId with
  | none => exact eqCore_refl s
  | some d => exact eqCore_createDiscussionReply s _ now

section MoreMapLemmas
variable {α : Type} {keyOf : α → Nat} {k : Nat} {v : α} {l : List α}
theorem self_mem_mapSet : v ∈ mapSet keyOf k v l := by
  unfold mapSet
  by_cases hc : l.any (fun x => keyOf x == k) = true
  · rw [if_pos hc]
    rcases List.any_eq_true.1 hc with ⟨x, hx, hxk⟩
    refine List.mem_map.2 ⟨x, hx, ?_⟩
    rw [if_pos hxk]
  · rw [if_neg hc]
    exact List.mem_append_right _ (List.mem_singleton.2 rfl)
theorem mem_mapSet_of_ne {y : α} (hy : y ∈ l) (hne : keyOf y ≠ k) :
    y ∈ mapSet keyOf k v l := by
  unfold mapSet
  by_cases hc : l.any (fun x => keyOf x == k) = true
  · rw [if_pos hc]
    refine List.mem_map.2 ⟨y, hy, ?_⟩
    rw [if_neg (by simpa using hne)]
  · rw [if_neg hc]
    exact List.mem_append_left _ hy
theorem mem_mapSet_strong {y : α} (hy : y ∈ mapSet keyOf k v l) :
    y = v ∨ (y ∈ l ∧ keyOf y ≠ k) := by
  unfold mapSet at hy
  by_cases hc : l.any (fun x => keyOf x == k) = true
  · rw [if_pos hc] at hy
    rcases List.mem_map.1 hy with ⟨x, hx, hxy⟩
    by_cases hk : (keyOf x == k) = true
    · left; rw [if_pos hk] at hxy; exact hxy.symm
    · right
      rw [if_neg hk] at hxy
      exact ⟨hxy ▸ hx, hxy ▸ (by simpa using hk)⟩
  · rw [if_neg hc] at hy
    simp only [List.any_eq_true, not_exists, not_and] at hc
    rcases List.mem_append.1 hy with h | h
    · exact Or.inr ⟨h, fun hk => hc y h (by simpa using hk)⟩
    · exact Or.inl (List.mem_singleton.1 h)
theorem pairwise_key_mapSet_replace (hv : keyOf v = k) (hex : ∃ x ∈ l, keyOf x = k)
    (hpw : l.Pairwise (fun a b => keyOf a < keyOf b)) :
    (mapSet keyOf k v l).Pairwise (fun a b => keyOf a < keyOf b) := by
  have hkeys := map_keyOf_mapSet (v := v) hv hex
  have h1 : ((mapSet keyOf k v l).map keyOf).Pairwise (· < ·) := by
    rw [hkeys]
    exact List.pairwise_map.2 hpw
  exact List.pairwise_map.1 h1
theorem pairwise_key_mapSet_append (hv : keyOf v = k) (hall : ∀ x ∈ l, keyOf x < k)
    (hpw : l.Pairwise (fun a b => keyOf a < keyOf b)) :
    (mapSet keyOf k v l).Pairwise (fun a b => keyOf a < keyOf b) := by
  rw [mapSet_of_forall_ne (fun x hx => Nat.ne_of_lt (hall x hx))]
  apply List.pairwise_append.2
  refine ⟨hpw, List.pairwise_singleton _ _, ?_⟩
  intro a ha b hb
  rw [List.mem_singleton.1 hb, hv]
  exact hall a ha
theorem length_filter_append_single (p : α → Bool) (x : α) :
    ((l ++ [x]).filter p).length = (l.filter p).length + (if p x then 1 else 0) := by
  rw [List.filter_append, List.length_append]
  congr 1
  by_cases hp : p x
  · rw [if_pos hp]
    simp [List.filter_cons, hp]
  · rw [if_neg hp]
    simp [List.filter_cons, hp]
theorem length_filter_zero {p : α → Bool} (h : ∀ x ∈ l, p x = false) :
    (l.filter p).length = 0 := by
  rw [List.length_eq_zero, List.filter_eq_nil_iff]
  intro a ha
  simp [h a ha]
end MoreMapLemmas

/-! ## Consequences of successful lookups -/

theorem getNoteById_mem {s : MemStorage} {nid : Nat} {note : Note}
    (hn : getNoteById s nid = some note) : note ∈ s.notes ∧ note.id = nid :=
  ⟨List.mem_of_find?_eq_some hn, by simpa using List.find?_some hn⟩

theorem getUser_mem {s : MemStorage} {uid : Nat} {u : User}
    (hu : getUser s uid = some u) : u ∈ s.users ∧ u.id = uid :=
  ⟨List.mem_of_find?_eq_some hu, by simpa using List.find?_some hu⟩

theorem getLikeByUserAndNote_mem {s : MemStorage} {uid nid : Nat} {like : Like}
    (hl : getLikeByUserAndNote s uid nid = some like) :
    like ∈ s.likes ∧ like.userId = uid ∧ like.noteId = nid := by
  refine ⟨List.mem_of_find?_eq_some hl, ?_⟩
  have := List.find?_some hl
  simp only [Bool.and_eq_true, beq_iff_eq] at this
  exact this

theorem getFollowByIds_mem {s : MemStorage} {a b : Nat} {f : Follow}
    (hf : getFollowByIds s a b = some f) :
    f ∈ s.follows ∧ f.followerId = a ∧ f.followedId = b := by
  refine ⟨List.mem_of_find?_eq_some hf, ?_⟩
  have := List.find?_some hf
  simp only [Bool.and_eq_true, beq_iff_eq] at this
  exact this

theorem getNoteById_none {s : MemStorage} {nid : Nat}
    (hn : getNoteById s nid = none) : ∀ n ∈ s.notes, n.id ≠ nid := by
  intro n hmem
  have := List.find?_eq_none.1 hn n hmem
  simpa using this

theorem getLikeByUserAndNote_none {s : MemStorage} {uid nid : Nat}
    (hl : getLikeByUserAndNote s uid nid = none) :
    ∀ x ∈ s.likes, ¬(x.userId = uid ∧ x.noteId = nid) := by
  intro x hmem
  have := List.find?_eq_none.1 hl x hmem
  simpa using this

theorem getFollowByIds_none {s : MemStorage} {a b : Nat}
    (hf : getFollowByIds s a b = none) :
    ∀ x ∈ s.follows, ¬(x.followerId = a ∧ x.followedId = b) := by
  intro x hmem
  have := List.find?_eq_none.1 hf x hmem
  simpa using this

/-! ## Invariant preservation -/

theorem inv_createNote {s : MemStorage} (h : Inv s) (i : InsertNote) (now : Nat) :
    Inv (createNote s i now).1 := by
  have hkey : ∀ (t : MemStorage) (uid : Nat) (c : Int) (note : Note),
      (match updateUserCoins t uid c with
       | (s2, Except.error e) => (s2, Except.error e)
       | (s2, Except.ok _) => (s2, Except.ok note)).1 = (updateUserCoins t uid c).1 := by
    intro t uid c note
    rcases updateUserCoins t uid c with ⟨s2, r⟩
    cases r <;> rfl
  unfold createNote
  simp only [hkey]
  apply inv_of_eqCore (eqCore_updateUserCoins _ _ _)
  -- invariant for the state with the freshly inserted note
  have hfresh : ∀ x ∈ s.notes, x.id < s.currentNoteId := h.notes_lt
  constructor
  · exact pairwise_key_mapSet_append rfl hfresh h.notes_sorted
  · intro n hn
    rcases mem_mapSet_strong hn with rfl | ⟨hmem, _⟩
    · exact Nat.lt_succ_self _
    · exact Nat.lt_succ_of_lt (hfresh n hmem)
  · exact h.likes_sorted
  · exact h.likes_lt
  · exact h.downloads_lt
  · exact h.follows_lt
  · intro l hl
    rcases h.like_note l hl with ⟨n, hn, hid⟩
    exact ⟨n, mem_mapSet_of_ne hn (by rw [hid]; exact Nat.ne_of_lt (by
      rcases h.like_note l hl with ⟨m, hm, hmid⟩
      exact hmid ▸ hfresh m hm)), hid⟩
  · intro d hd
    rcases h.download_note d hd with ⟨n, hn, hid⟩
    exact ⟨n, mem_mapSet_of_ne hn (by rw [hid]; exact Nat.ne_of_lt (by
      rcases h.download_note d hd with ⟨m, hm, hmid⟩
      exact hmid ▸ hfresh m hm)), hid⟩
  · exact h.like_unique
  · exact h.follow_unique
  · exact h.follow_no_self
  · intro n hn
    rcases mem_mapSet_strong hn with rfl | ⟨hmem, _⟩
    · constructor
      · show (0 : Int) = (downloadsCount s.downloads s.currentNoteId : Int)
        have : downloadsCount s.downloads s.currentNoteId = 0 := by
          apply length_filter_zero
          intro d hd
          rcases h.download_note d hd with ⟨m, hm, hmid⟩
          simp only [beq_eq_false_iff_ne, ne_eq]
          rw [← hmid]
          exact Nat.ne_of_lt (hfresh m hm)
        rw [this]; rfl
      · show (0 : Int) = (likesCount s.likes s.currentNoteId : Int)
        have : likesCount s.likes s.currentNoteId = 0 := by
          apply length_filter_zero
          intro d hd
          rcases h.like_note d hd with ⟨m, hm, hmid⟩
          simp only [beq_eq_false_iff_ne, ne_eq]
          rw [← hmid]
          exact Nat.ne_of_lt (hfresh m hm)
        rw [this]; rfl
    · exact h.counters n hmem

theorem exists_key_mapSet {α : Type} {keyOf : α → Nat} {k i : Nat} {v : α} {l : List α}
    (hv : keyOf v = k) (hex : ∃ x ∈ l, keyOf x = i) :
    ∃ x ∈ mapSet keyOf k v l, keyOf x = i := by
  rcases hex with ⟨x, hx, hxi⟩
  by_cases hik : i = k
  · exact ⟨v, self_mem_mapSet, hv.trans hik.symm⟩
  · exact ⟨x, mem_mapSet_of_ne hx (fun hc => hik (hxi ▸ hc)), hxi⟩

theorem downloadsCount_fresh_set {ds : List Download} {cur : Nat} {dl : Download}
    (hfresh : ∀ x ∈ ds, x.id ≠ cur) (nid : Nat) :
    downloadsCount (mapSet Download.id cur dl ds) nid =
      downloadsCount ds nid + (if dl.noteId = nid then 1 else 0) := by
  unfold downloadsCount
  rw [mapSet_of_forall_ne hfresh, length_filter_append_single]
  congr 1
  by_cases hx : dl.noteId = nid <;> simp [hx]

theorem likesCount_fresh_set {ls : List Like} {cur : Nat} {lk : Like}
    (hfresh : ∀ x ∈ ls, x.id ≠ cur) (nid : Nat) :
    likesCount (mapSet Like.id cur lk ls) nid =
      likesCount ls nid + (if lk.noteId = nid then 1 else 0) := by
  unfold likesCount
  rw [mapSet_of_forall_ne hfresh, length_filter_append_single]
  congr 1
  by_cases hx : lk.noteId = nid <;> simp [hx]

theorem likesCount_delete {ls : List Like} {x : Like}
    (hpw : ls.Pairwise (fun a b => a.id < b.id)) (hx : x ∈ ls) (nid : Nat) :
    likesCount ls nid =
      likesCount (mapDelete Like.id x.id ls) nid + (if x.noteId = nid then 1 else 0) := by
  unfold likesCount
  have := length_filter_mapDelete (fun l => l.noteId == nid) hpw hx
  rw [this]
  congr 1
  by_cases hc : x.noteId = nid <;> simp [hc]

theorem inv_recordDownload {s : MemStorage} (h : Inv s) {d : InsertDownload} {note : Note}
    (hn : getNoteById s d.noteId = some note) (now : Nat) :
    Inv (recordDownload s d now).1 := by
  obtain ⟨hnmem, hnid⟩ := getNoteById_mem hn
  have hkey : ∀ (t : MemStorage) (nid : Nat) (dl : Download),
      (match updateNoteDownloads t nid with
       | (s2, Except.error e) => (s2, Except.error e)
       | (s2, Except.ok _) => (s2, Except.ok dl)).1 = (updateNoteDownloads t nid).1 := by
    intro t nid dl
    rcases updateNoteDownloads t nid with ⟨s2, r⟩
    cases r <;> rfl
  unfold recordDownload
  simp only [hkey]
  have hn1 : getNoteById
      { s with currentDownloadId := s.currentDownloadId + 1,
               downloads := mapSet Download.id s.currentDownloadId
                 { id := s.currentDownloadId, noteId := d.noteId, userId := d.userId,
                   createdAt := now } s.downloads } d.noteId = some note := hn
  unfold updateNoteDownloads
  simp only [hn1]
  have hdfresh : ∀ x ∈ s.downloads, x.id ≠ s.currentDownloadId :=
    fun x hx => Nat.ne_of_lt (h.downloads_lt x hx)
  have hv : ({ note with downloads := note.downloads + 1 } : Note).id = d.noteId := hnid
  have hex : ∃ x ∈ s.notes, x.id = d.noteId := ⟨note, hnmem, hnid⟩
  constructor
  · exact pairwise_key_mapSet_replace hv hex h.notes_sorted
  · intro n hmem
    rcases mem_mapSet_strong hmem with rfl | ⟨hmem', _⟩
    · exact h.notes_lt note hnmem
    · exact h.notes_lt n hmem'
  · exact h.likes_sorted
  · exact h.likes_lt
  · intro x hmem
    rcases mem_mapSet_strong hmem with rfl | ⟨hmem', _⟩
    · exact Nat.lt_succ_self _
    · exact Nat.lt_succ_of_lt (h.downloads_lt x hmem')
  · exact h.follows_lt
  · intro l hl
    exact exists_key_mapSet hv (h.like_note l hl)
  · intro x hmem
    rcases mem_mapSet_strong hmem with rfl | ⟨hmem', _⟩
    · exact ⟨_, self_mem_mapSet, hv⟩
    · exact exists_key_mapSet hv (h.download_note x hmem')
  · exact h.like_unique
  · exact h.follow_unique
  · exact h.follow_no_self
  · intro n hmem
    rcases mem_mapSet_strong hmem with rfl | ⟨hmem', hne⟩
    · constructor
      · dsimp only
        rw [downloadsCount_fresh_set hdfresh]
        dsimp only
        rw [if_pos hnid.symm]
        have hc := (h.counters note hnmem).1
        push_cast
        omega
      · dsimp only
        exact (h.counters note hnmem).2
    · constructor
      · rw [downloadsCount_fresh_set hdfresh]
        dsimp only
        rw [if_neg (fun hc => hne hc.symm), Nat.add_zero]
        exact (h.counters n hmem').1
      · exact (h.counters n hmem').2

theorem inv_createOrToggleLike {s : MemStorage} (h : Inv s) {il : InsertLike} {note : Note}
    (hn : getNoteById s il.noteId = some note) (now : Nat) :
    Inv (createOrToggleLike s il now).1 := by
  obtain ⟨hnmem, hnid⟩ := getNoteById_mem hn
  have hkey : ∀ (t : MemStorage) (nid : Nat) (inc : Bool) (r : Option Like),
      (match updateNoteLikes t nid inc with
       | (s2, Except.error e) => (s2, Except.error e)
       | (s2, Except.ok _) => (s2, Except.ok r)).1 = (updateNoteLikes t nid inc).1 := by
    intro t nid inc r
    rcases updateNoteLikes t nid inc with ⟨s2, r'⟩
    cases r' <;> rfl
  unfold createOrToggleLike
  cases hel : getLikeByUserAndNote s il.userId il.noteId with
  | some el =>
    obtain ⟨helmem, heluid, helnid⟩ := getLikeByUserAndNote_mem hel
    simp only [hkey]
    have hn1 : getNoteById
        { s with likes := mapDelete Like.id el.id s.likes } il.noteId = some note := hn
    unfold updateNoteLikes
    simp only [hn1, Bool.false_eq_true, if_false]
    have hcnt := (h.counters note hnmem).2
    have hone : 1 ≤ likesCount s.likes note.id := by
      have hmemf : el ∈ s.likes.filter (fun l => l.noteId == note.id) :=
        List.mem_filter.2 ⟨helmem, by simp [helnid, hnid]⟩
      exact List.length_pos.2 (List.ne_nil_of_mem hmemf)
    have hmax : max 0 (note.likes - 1) = note.likes - 1 := by
      rw [hcnt]
      apply max_eq_right
      omega
    have hv : ({ note with likes := max 0 (note.likes - 1) } : Note).id = il.noteId := hnid
    have hex : ∃ x ∈ s.notes, x.id = il.noteId := ⟨note, hnmem, hnid⟩
    constructor
    · exact pairwise_key_mapSet_replace hv hex h.notes_sorted
    · intro n hmem
      rcases mem_mapSet_strong hmem with rfl | ⟨hmem', _⟩
      · exact h.notes_lt note hnmem
      · exact h.notes_lt n hmem'
    · exact h.likes_sorted.sublist mapDelete_sublist
    · intro x hmem
      exact h.likes_lt x (mem_of_mem_mapDelete hmem).1
    · exact h.downloads_lt
    · exact h.follows_lt
    · intro l hl
      exact exists_key_mapSet hv (h.like_note l (mem_of_mem_mapDelete hl).1)
    · intro x hmem
      exact exists_key_mapSet hv (h.download_note x hmem)
    · exact h.like_unique.sublist mapDelete_sublist
    · exact h.follow_unique
    · exact h.follow_no_self
    · intro n hmem
      rcases mem_mapSet_strong hmem with rfl | ⟨hmem', hne⟩
      · constructor
        · dsimp only
          exact (h.counters note hnmem).1
        · dsimp only
          rw [hmax]
          have hdel := likesCount_delete h.likes_sorted helmem note.id
          rw [if_pos (helnid.trans hnid.symm)] at hdel
          rw [hcnt]
          omega
      · constructor
        · exact (h.counters n hmem').1
        · have hdel := likesCount_delete h.likes_sorted helmem n.id
          rw [if_neg (fun hc => hne ((helnid.symm.trans hc).symm)), Nat.add_zero] at hdel
          rw [← hdel]
          exact (h.counters n hmem').2
  | none =>
    simp only [hkey]
    have hn1 : getNoteById
        { s with currentLikeId := s.currentLikeId + 1,
                 likes := mapSet Like.id s.currentLikeId
                   { id := s.currentLikeId, noteId := il.noteId, userId := il.userId,
                     createdAt := now } s.likes } il.noteId = some note := hn
    unfold updateNoteLikes
    simp only [hn1, if_true]
    have hcnt := (h.counters note hnmem).2
    have hmax : max 0 (note.likes + 1) = note.likes + 1 := by
      rw [hcnt]
      apply max_eq_right
      positivity
    have hlfresh : ∀ x ∈ s.likes, x.id ≠ s.currentLikeId :=
      fun x hx => Nat.ne_of_lt (h.likes_lt x hx)
    have hv : ({ note with likes := max 0 (note.likes + 1) } : Note).id = il.noteId := hnid
    have hex : ∃ x ∈ s.notes, x.id = il.noteId := ⟨note, hnmem, hnid⟩
    have hnolike := getLikeByUserAndNote_none hel
    constructor
    · exact pairwise_key_mapSet_replace hv hex h.notes_sorted
    · intro n hmem
      rcases mem_mapSet_strong hmem with rfl | ⟨hmem', _⟩
      · exact h.notes_lt note hnmem
      · exact h.notes_lt n hmem'
    · exact pairwise_key_mapSet_append rfl (fun x hx => h.likes_lt x hx) h.likes_sorted
    · intro x hmem
      rcases mem_mapSet_strong hmem with rfl | ⟨hmem', _⟩
      · exact Nat.lt_succ_self _
      · exact Nat.lt_succ_of_lt (h.likes_lt x hmem')
    · exact h.downloads_lt
    · exact h.follows_lt
    · intro l hl
      rcases mem_mapSet_strong hl with rfl | ⟨hmem', _⟩
      · exact ⟨_, self_mem_mapSet, hv⟩
      · exact exists_key_mapSet hv (h.like_note l hmem')
    · intro x hmem
      exact exists_key_mapSet hv (h.download_note x hmem)
    · rw [mapSet_of_forall_ne hlfresh]
      apply List.pairwise_append.2
      refine ⟨h.like_unique, List.pairwise_singleton _ _, ?_⟩
      intro a ha b hb hab
      rw [List.mem_singleton.1 hb] at hab
      exact hnolike a ha ⟨hab.1, hab.2⟩
    · exact h.follow_unique
    · exact h.follow_no_self
    · intro n hmem
      rcases mem_mapSet_strong hmem with rfl | ⟨hmem', hne⟩
      · constructor
        · dsimp only
          exact (h.counters note hnmem).1
        · dsimp only
          rw [hmax, likesCount_fresh_set hlfresh]
          dsimp only
          rw [if_pos hnid.symm]
          rw [hcnt]
          push_cast
          omega
      · constructor
        · exact (h.counters n hmem').1
        · rw [likesCount_fresh_set hlfresh]
          dsimp only
          rw [if_neg (fun hc => hne hc.symm), Nat.add_zero]
          exact (h.counters n hmem').2

theorem inv_uploadNoteRoute {s : MemStorage} (h : Inv s) (userId : Nat)
    (req : UploadRequest) (uniqueId : String) (now : Nat) :
    Inv (uploadNoteRoute s userId req uniqueId now).1 := by
  have hkey : ∀ (t : MemStorage) (i : InsertNote) (nw : Nat),
      (match createNote t i nw with
       | (s1, Except.error e) => (s1, UploadResult.serverError e)
       | (s1, Except.ok note) => (s1, UploadResult.created note)).1 = (createNote t i nw).1 := by
    intro t i nw
    rcases createNote t i nw with ⟨s1, r⟩
    cases r <;> rfl
  unfold uploadNoteRoute
  split
  · exact h
  · dsimp only
    split
    · exact h
    · simp only [hkey]
      exact inv_createNote h _ now

theorem inv_downloadRoute {s : MemStorage} (h : Inv s) (noteId userId now : Nat) :
    Inv (downloadRoute s noteId userId now).1 := by
  unfold downloadRoute
  cases hn : getNoteById s noteId with
  | none => exact h
  | some note =>
    dsimp only
    rcases hpc : premiumChargeBlock s note userId with ⟨s1, r1⟩
    have he1 : EqCore s1 s := by
      have := eqCore_premiumChargeBlock s note userId
      rwa [hpc] at this
    have h1 : Inv s1 := inv_of_eqCore he1 h
    cases r1 with
    | error r => exact h1
    | ok u =>
      dsimp only
      have hn1 : getNoteById s1
          ({ noteId := noteId, userId := userId } : InsertDownload).noteId = some note := by
        unfold getNoteById
        rw [he1.1]
        exact hn
      have hrec := inv_recordDownload h1 hn1 now
      rcases hrd : recordDownload s1 { noteId := noteId, userId := userId } now with ⟨s2, r2⟩
      rw [hrd] at hrec
      cases r2 <;> exact hrec

theorem inv_likeRoute {s : MemStorage} (h : Inv s) (noteId userId now : Nat) :
    Inv (likeRoute s noteId userId now).1 := by
  unfold likeRoute
  cases hn : getNoteById s noteId with
  | none => exact h
  | some note =>
    dsimp only
    have hn' : getNoteById s
        ({ noteId := noteId, userId := userId } : InsertLike).noteId = some note := hn
    have htog := inv_createOrToggleLike h hn' now
    rcases htg : createOrToggleLike s { noteId := noteId, userId := userId } now with ⟨s1, r1⟩
    rw [htg] at htog
    cases r1 <;> exact htog

theorem inv_followRoute {s : MemStorage} (h : Inv s) (followerId followedId now : Nat) :
    Inv (followRoute s followerId followedId now).1 := by
  unfold followRoute
  by_cases hab : followerId = followedId
  · rw [if_pos hab]
    exact h
  · rw [if_neg hab]
    cases hu : getUser s followedId with
    | none => exact h
    | some u =>
      cases hf : getFollowByIds s followerId followedId with
      | some f =>
        dsimp only
        unfold removeFollow
        rw [hf]
        constructor
        · exact h.notes_sorted
        · exact h.notes_lt
        · exact h.likes_sorted
        · exact h.likes_lt
        · exact h.downloads_lt
        · intro x hmem
          exact h.follows_lt x (mem_of_mem_mapDelete hmem).1
        · exact h.like_note
        · exact h.download_note
        · exact h.like_unique
        · exact h.follow_unique.sublist mapDelete_sublist
        · intro x hmem
          exact h.follow_no_self x (mem_of_mem_mapDelete hmem).1
        · exact h.counters
      | none =>
        dsimp only
        have hffresh : ∀ x ∈ s.follows, x.id ≠ s.currentFollowId :=
          fun x hx => Nat.ne_of_lt (h.follows_lt x hx)
        have hnof := getFollowByIds_none hf
        unfold createFollow
        dsimp only
        constructor
        · exact h.notes_sorted
        · exact h.notes_lt
        · exact h.likes_sorted
        · exact h.likes_lt
        · exact h.downloads_lt
        · intro x hmem
          rcases mem_mapSet_strong hmem with rfl | ⟨hmem', _⟩
          · exact Nat.lt_succ_self _
          · exact Nat.lt_succ_of_lt (h.follows_lt x hmem')
        · exact h.like_note
        · exact h.download_note
        · exact h.like_unique
        · rw [mapSet_of_forall_ne hffresh]
          apply List.pairwise_append.2
          refine ⟨h.follow_unique, List.pairwise_singleton _ _, ?_⟩
          intro a ha b hb hcontra
          rw [List.mem_singleton.1 hb] at hcontra
          exact hnof a ha ⟨hcontra.1, hcontra.2⟩
        · intro x hmem
          rcases mem_mapSet_strong hmem with rfl | ⟨hmem', _⟩
          · exact hab
          · exact h.follow_no_self x hmem'
        · exact h.counters

theorem inv_applyOp {s : MemStorage} (h : Inv s) (op : Op) : Inv (applyOp s op) := by
  cases op with
  | register iu now => exact inv_of_eqCore (eqCore_createUser s iu now) h
  | upload userId req uniqueId now => exact inv_uploadNoteRoute h userId req uniqueId now
  | download noteId userId now => exact inv_downloadRoute h noteId userId now
  | like noteId userId now => exact inv_likeRoute h noteId userId now
  | follow followerId followedId now => exact inv_followRoute h followerId followedId now
  | comment noteId userId content now =>
      exact inv_of_eqCore (eqCore_commentRoute s noteId userId content now) h
  | newDiscussion userId title content category now =>
      exact inv_of_eqCore (eqCore_createDiscussion s _ now) h
  | viewDiscussion id => exact inv_of_eqCore (eqCore_viewDiscussionRoute s id) h
  | reply discussionId userId content parentReplyId attachmentUrl attachmentType now =>
      exact inv_of_eqCore
        (eqCore_createReplyRoute s discussionId userId content parentReplyId
          attachmentUrl attachmentType now) h

theorem inv_initialStorage : Inv initialStorage := by
  constructor <;> simp [initialStorage, downloadsCount, likesCount]

theorem reachable_inv {s : MemStorage} (hr : Reachable s) : Inv s := by
  induction hr with
  | init => exact inv_initialStorage
  | step op hs ih => exact inv_applyOp ih op

/-! ## Claim theorems -/

/-- C1: Counter-consistency invariant — in every state reachable by the core
operations, every stored Note's `downloads` field equals the number of
Download records with its id and its `likes` field equals the number of Like
records with its id. -/
theorem counters_consistent (s : MemStorage) (hr : Reachable s) :
    ∀ n ∈ s.notes,
      n.downloads = (downloadsCount s.downloads n.id : Int) ∧
      n.likes = (likesCount s.likes n.id : Int) :=
  (reachable_inv hr).counters

theorem counters_consistent_witness :
    wNote1.downloads = (downloadsCount wState1.downloads wNote1.id : Int) ∧
    wNote1.likes = (likesCount wState1.likes wNote1.id : Int) :=
  counters_consistent wState1
    (Reachable.step _ (Reachable.step _ (Reachable.step _ Reachable.init)))
    wNote1 (by decide)

/-- The `users` map is untouched by `updateNoteDownloads`. -/
theorem updateNoteDownloads_users (s : MemStorage) (nid : Nat) :
    ((updateNoteDownloads s nid).1).users = s.users := by
  unfold updateNoteDownloads
  cases getNoteById s nid <;> rfl

theorem recordDownload_users (s : MemStorage) (d : InsertDownload) (now : Nat) :
    ((recordDownload s d now).1).users = s.users := by
  have hkey : ∀ (t : MemStorage) (nid : Nat) (dl : Download),
      (match updateNoteDownloads t nid with
       | (s2, Except.error e) => (s2, Except.error e)
       | (s2, Except.ok _) => (s2, Except.ok dl)).1 = (updateNoteDownloads t nid).1 := by
    intro t nid dl
    rcases updateNoteDownloads t nid with ⟨s2, r⟩
    cases r <;> rfl
  unfold recordDownload
  simp only [hkey]
  rw [updateNoteDownloads_users]

/-- The `notes` map is untouched by `premiumChargeBlock`. -/
theorem premiumChargeBlock_notes (s : MemStorage) (note : Note) (userId : Nat) :
    ((premiumChargeBlock s note userId).1).notes = s.notes := by
  have := eqCore_premiumChargeBlock s note userId
  exact this.1

/-- C2: Premium-download charge — with the buyer and the note's owner both
stored and a premium note of nonnegative price, a download request by a buyer
whose balance is below the price fails with `insufficientCoins` reporting
required = price and available = buyer's balance and changes nothing at all;
otherwise the request succeeds, the buyer's balance decreases by exactly the
price and, when the buyer is not the owner, the owner's balance increases by
exactly the price, conserving the total across the two accounts. -/
theorem chargeForPremiumDownload_spec (s : MemStorage) (noteId buyerId now : Nat)
    (note : Note) (buyer seller : User)
    (hn : getNoteById s noteId = some note)
    (hprem : note.isPremium = true)
    (hprice : 0 ≤ note.coinPrice)
    (hb : getUser s buyerId = some buyer)
    (hs : getUser s note.userId = some seller) :
    (buyer.coins < note.coinPrice →
      downloadRoute s noteId buyerId now =
        (s, DownloadResult.insufficientCoins note.coinPrice buyer.coins)) ∧
    (note.coinPrice ≤ buyer.coins →
      (downloadRoute s noteId buyerId now).2 =
        DownloadResult.success note.fileUrl note.fileName ∧
      ∃ b', getUser (downloadRoute s noteId buyerId now).1 buyerId = some b' ∧
        b'.coins = buyer.coins - note.coinPrice ∧
        (buyerId ≠ note.userId →
          ∃ sl, getUser (downloadRoute s noteId buyerId now).1 note.userId = some sl ∧
            sl.coins = seller.coins + note.coinPrice ∧
            b'.coins + sl.coins = buyer.coins + seller.coins)) := by
  have hbuyerid : buyer.id = buyerId := (getUser_mem hb).2
  have hsellerid : seller.id = note.userId := (getUser_mem hs).2
  constructor
  · intro hlt
    have hpcb : premiumChargeBlock s note buyerId =
        (s, Except.error (DownloadResult.insufficientCoins note.coinPrice buyer.coins)) := by
      unfold premiumChargeBlock
      simp only [hprem, if_true, hb, if_pos hlt]
    unfold downloadRoute
    simp only [hn, hpcb]
  · intro hge
    have hnlt : ¬ buyer.coins < note.coinPrice := not_lt.2 hge
    -- state after debiting the buyer
    have hbuy : updateUserCoins s buyerId (-note.coinPrice) =
        ({ s with users := (mapSet User.id buyerId
            { buyer with coins := buyer.coins + -note.coinPrice } s.users) },
         Except.ok { buyer with coins := buyer.coins + -note.coinPrice }) := by
      unfold updateUserCoins
      rw [hb]
    by_cases hne : buyerId ≠ note.userId
    · -- buyer and owner are different accounts: the owner is credited
      have hgetSeller : getUser
          { s with users := (mapSet User.id buyerId
              { buyer with coins := buyer.coins + -note.coinPrice } s.users) }
          note.userId = some seller := by
        unfold getUser
        show List.find? _ (mapSet User.id buyerId _ s.users) = some seller
        rw [find?_mapSet_ne
          (show ({ buyer with coins := buyer.coins + -note.coinPrice } : User).id = buyerId
            from hbuyerid)
          (fun hcon => hne hcon.symm)]
        exact hs
      have hsell : updateUserCoins
          { s with users := (mapSet User.id buyerId
              { buyer with coins := buyer.coins + -note.coinPrice } s.users) }
          note.userId note.coinPrice =
          ({ s with users := (mapSet User.id note.userId
              { seller with coins := seller.coins + note.coinPrice }
              (mapSet User.id buyerId
                { buyer with coins := buyer.coins + -note.coinPrice } s.users)) },
           Except.ok { seller with coins := seller.coins + note.coinPrice }) := by
        unfold updateUserCoins
        rw [hgetSeller]
      have hpcb : premiumChargeBlock s note buyerId =
          ({ s with users := (mapSet User.id note.userId
              { seller with coins := seller.coins + note.coinPrice }
              (mapSet User.id buyerId
                { buyer with coins := buyer.coins + -note.coinPrice } s.users)) },
           Except.ok ()) := by
        unfold premiumChargeBlock
        simp only [hprem, if_true, hb, if_neg hnlt, hbuy, if_pos hne, hsell]
      have hnotes2 : ({ s with users := (mapSet User.id note.userId
          { seller with coins := seller.coins + note.coinPrice }
          (mapSet User.id buyerId
            { buyer with coins := buyer.coins + -note.coinPrice } s.users)) } :
          MemStorage).notes = s.notes := rfl
      have hrd : ∀ t : MemStorage, t.notes = s.notes →
          ∃ s3 dl, recordDownload t { noteId := noteId, userId := buyerId } now =
            (s3, Except.ok dl) ∧ s3.users = t.users := by
        intro t ht
        unfold recordDownload updateNoteDownloads
        dsimp only
        have hng : getNoteById
            { t with currentDownloadId := t.currentDownloadId + 1,
                     downloads := (mapSet Download.id t.currentDownloadId
                       { id := t.currentDownloadId, noteId := noteId, userId := buyerId,
                         createdAt := now } t.downloads) }
            ({ noteId := noteId, userId := buyerId } : InsertDownload).noteId = some note := by
          unfold getNoteById
          show List.find? _ t.notes = some note
          rw [ht]
          exact hn
        rw [hng]
        exact ⟨_, _, rfl, rfl⟩
      rcases hrd _ hnotes2 with ⟨s3, dl, hrdeq, hrdusers⟩
      have hroute : downloadRoute s noteId buyerId now =
          (s3, DownloadResult.success note.fileUrl note.fileName) := by
        unfold downloadRoute
        simp only [hn, hpcb, hrdeq]
      rw [hroute]
      refine ⟨rfl, { buyer with coins := buyer.coins + -note.coinPrice }, ?_, ?_, ?_⟩
      · show getUser s3 buyerId = _
        unfold getUser
        rw [hrdusers]
        show List.find? _ (mapSet User.id note.userId _ _) = _
        rw [find?_mapSet_ne
          (show ({ seller with coins := seller.coins + note.coinPrice } : User).id = note.userId
            from hsellerid)
          hne]
        exact find?_mapSet_self hbuyerid
      · show buyer.coins + -note.coinPrice = buyer.coins - note.coinPrice
        omega
      · intro _
        refine ⟨{ seller with coins := seller.coins + note.coinPrice }, ?_, rfl, ?_⟩
        · show getUser s3 note.userId = _
          unfold getUser
          rw [hrdusers]
          exact find?_mapSet_self hsellerid
        · show buyer.coins + -note.coinPrice + (seller.coins + note.coinPrice) = _
          omega
    · -- buyer downloads their own note: debited, no credit
      have hpcb : premiumChargeBlock s note buyerId =
          ({ s with users := (mapSet User.id buyerId
              { buyer with coins := buyer.coins + -note.coinPrice } s.users) },
           Except.ok ()) := by
        unfold premiumChargeBlock
        simp only [hprem, if_true, hb, if_neg hnlt, hbuy, if_neg hne]
      have hnotes1 : ({ s with users := (mapSet User.id buyerId
          { buyer with coins := buyer.coins + -note.coinPrice } s.users) } :
          MemStorage).notes = s.notes := rfl
      have hrd : ∀ t : MemStorage, t.notes = s.notes →
          ∃ s3 dl, recordDownload t { noteId := noteId, userId := buyerId } now =
            (s3, Except.ok dl) ∧ s3.users = t.users := by
        intro t ht
        unfold recordDownload updateNoteDownloads
        dsimp only
        have hng : getNoteById
            { t with currentDownloadId := t.currentDownloadId + 1,
                     downloads := (mapSet Download.id t.currentDownloadId
                       { id := t.currentDownloadId, noteId := noteId, userId := buyerId,
                         createdAt := now } t.downloads) }
            ({ noteId := noteId, userId := buyerId } : InsertDownload).noteId = some note := by
          unfold getNoteById
          show List.find? _ t.notes = some note
          rw [ht]
          exact hn
        rw [hng]
        exact ⟨_, _, rfl, rfl⟩
      rcases hrd _ hnotes1 with ⟨s3, dl, hrdeq, hrdusers⟩
      have hroute : downloadRoute s noteId buyerId now =
          (s3, DownloadResult.success note.fileUrl note.fileName) := by
        unfold downloadRoute
        simp only [hn, hpcb, hrdeq]
      rw [hroute]
      refine ⟨rfl, { buyer with coins := buyer.coins + -note.coinPrice }, ?_, ?_, ?_⟩
      · show getUser s3 buyerId = _
        unfold getUser
        rw [hrdusers]
        exact find?_mapSet_self hbuyerid
      · show buyer.coins + -note.coinPrice = buyer.coins - note.coinPrice
        omega
      · intro hcon
        exact absurd hcon hne

theorem chargeForPremiumDownload_spec_witness :
    (downloadRoute wState2 1 2 9).2 = DownloadResult.success "/u" "f.pdf" ∧
    ∃ b', getUser (downloadRoute wState2 1 2 9).1 2 = some b' ∧
      b'.coins = 7 - 5 ∧
      (2 ≠ 1 →
        ∃ sl, getUser (downloadRoute wState2 1 2 9).1 1 = some sl ∧
          sl.coins = 0 + 5 ∧ b'.coins + sl.coins = 7 + 0) :=
  (chargeForPremiumDownload_spec wState2 1 2 9
    { id := 1, title := "t", description := "d", userId := 1, category := "c",
      fileUrl := "/u", fileName := "f.pdf", fileSize := 1, fileType := "pdf",
      isPremium := true, coinPrice := 5, previewPages := 0, downloads := 0,
      likes := 0, tags := [], createdAt := 0 }
    { id := 2, username := "bob", email := "b@x", password := "p2", coins := 7,
      avatarUrl := none, createdAt := 0 }
    { id := 1, username := "ann", email := "a@x", password := "p1", coins := 0,
      avatarUrl := none, createdAt := 0 }
    (by decide) (by decide) (by decide) (by decide) (by decide)).2 (by decide)

/-! ## Characterization of the like toggle -/

/-- Deleting the entry just appended with a fresh key restores the list. -/
theorem mapDelete_append_fresh {α : Type} {keyOf : α → Nat} {k : Nat} {v : α} {l : List α}
    (hfresh : ∀ x ∈ l, keyOf x ≠ k) (hv : keyOf v = k) :
    mapDelete keyOf k (l ++ [v]) = l := by
  unfold mapDelete
  rw [List.filter_append]
  have h1 : l.filter (fun x => keyOf x != k) = l := by
    apply List.filter_eq_self.2
    intro x hx
    simpa using hfresh x hx
  have h2 : [v].filter (fun x => keyOf x != k) = [] := by
    simp [hv]
  rw [h1, h2, List.append_nil]

/-- In a pairwise-distinct-pair list, two members matching the same
(user, note) pair are the same element. -/
theorem like_pair_unique {likes : List Like}
    (huniq : likes.Pairwise (fun a b => ¬(a.userId = b.userId ∧ a.noteId = b.noteId)))
    {x y : Like} (hx : x ∈ likes) (hy : y ∈ likes)
    (hxy : x.userId = y.userId ∧ x.noteId = y.noteId) : x = y := by
  by_contra hne
  have hsymm : Symmetric (fun a b : Like => ¬(a.userId = b.userId ∧ a.noteId = b.noteId)) :=
    fun a b hab hc => hab ⟨hc.1.symm, hc.2.symm⟩
  exact huniq.forall hsymm hx hy hne hxy

/-- After deleting the unique like for a pair, no like for the pair remains. -/
theorem find?_pair_delete_none {likes : List Like}
    (huniq : likes.Pairwise (fun a b => ¬(a.userId = b.userId ∧ a.noteId = b.noteId)))
    {el : Like} {uid nid : Nat} (helmem : el ∈ likes)
    (heluid : el.userId = uid) (helnid : el.noteId = nid) :
    (mapDelete Like.id el.id likes).find?
      (fun l => l.userId == uid && l.noteId == nid) = none := by
  rw [List.find?_eq_none]
  intro x hx
  obtain ⟨hxin, hxid⟩ := mem_of_mem_mapDelete hx
  intro hpred
  simp only [Bool.and_eq_true, beq_iff_eq] at hpred
  have hxel : x = el :=
    like_pair_unique huniq hxin helmem
      ⟨hpred.1.trans heluid.symm, hpred.2.trans helnid.symm⟩
  exact hxid (by rw [hxel])

/-- Appending a like matching the pair to a list with no match makes the
lookup find it. -/
theorem find?_pair_append {likes : List Like} {newLike : Like} {uid nid : Nat}
    (hnone : likes.find? (fun l => l.userId == uid && l.noteId == nid) = none)
    (hu : newLike.userId = uid) (hn : newLike.noteId = nid) :
    (likes ++ [newLike]).find? (fun l => l.userId == uid && l.noteId == nid) =
      some newLike := by
  rw [find?_append_none hnone]
  have hpred : (newLike.userId == uid && newLike.noteId == nid) = true := by
    simp [hu, hn]
  simp [List.find?_cons, hpred]

/-- `createOrToggleLike` when a like for the pair exists: the like is deleted
and the note's counter decremented (the floor at 0 does not engage in an
invariant state). -/
theorem createOrToggleLike_delete {s : MemStorage} (h : Inv s) {uid nid : Nat}
    {note : Note} {el : Like} (hn : getNoteById s nid = some note)
    (hel : getLikeByUserAndNote s uid nid = some el) (now : Nat) :
    createOrToggleLike s { noteId := nid, userId := uid } now =
      ({ s with likes := mapDelete Like.id el.id s.likes,
                notes := (mapSet Note.id nid
                  { note with likes := note.likes - 1 } s.notes) },
       Except.ok none) := by
  obtain ⟨helmem, heluid, helnid⟩ := getLikeByUserAndNote_mem hel
  obtain ⟨hnmem, hnid⟩ := getNoteById_mem hn
  have hcnt := (h.counters note hnmem).2
  have hone : 1 ≤ likesCount s.likes note.id := by
    have hmemf : el ∈ s.likes.filter (fun l => l.noteId == note.id) :=
      List.mem_filter.2 ⟨helmem, by simp [helnid, hnid]⟩
    exact List.length_pos.2 (List.ne_nil_of_mem hmemf)
  have hmax : max 0 (note.likes - 1) = note.likes - 1 := by
    rw [hcnt]
    apply max_eq_right
    omega
  have hn1 : getNoteById { s with likes := mapDelete Like.id el.id s.likes } nid =
      some note := hn
  unfold createOrToggleLike
  dsimp only
  simp only [hel]
  unfold updateNoteLikes
  simp only [hn1, Bool.false_eq_true, if_false]
  rw [hmax]

/-- `createOrToggleLike` when no like for the pair exists: a fresh like is
stored and the note's counter incremented. -/
theorem createOrToggleLike_create {s : MemStorage} (h : Inv s) {uid nid : Nat}
    {note : Note} (hn : getNoteById s nid = some note)
    (hel : getLikeByUserAndNote s uid nid = none) (now : Nat) :
    createOrToggleLike s { noteId := nid, userId := uid } now =
      ({ s with currentLikeId := s.currentLikeId + 1,
                likes := (mapSet Like.id s.currentLikeId
                  { id := s.currentLikeId, noteId := nid, userId := uid,
                    createdAt := now } s.likes),
                notes := (mapSet Note.id nid
                  { note with likes := note.likes + 1 } s.notes) },
       Except.ok (some { id := s.currentLikeId, noteId := nid, userId := uid,
                         createdAt := now })) := by
  obtain ⟨hnmem, hnid⟩ := getNoteById_mem hn
  have hcnt := (h.counters note hnmem).2
  have hmax : max 0 (note.likes + 1) = note.likes + 1 := by
    rw [hcnt]
    apply max_eq_right
    positivity
  have hn1 : getNoteById
      { s with currentLikeId := s.currentLikeId + 1,
               likes := (mapSet Like.id s.currentLikeId
                 { id := s.currentLikeId, noteId := nid, userId := uid,
                   createdAt := now } s.likes) } nid = some note := hn
  unfold createOrToggleLike
  dsimp only
  simp only [hel]
  unfold updateNoteLikes
  simp only [hn1, if_true]
  rw [hmax]

/-- The state after `likeRoute` on an existing note is the toggle's state. -/
theorem likeRoute_fst {s : MemStorage} {noteId : Nat} {note : Note}
    (hn : getNoteById s noteId = some note) (userId now : Nat) :
    (likeRoute s noteId userId now).1 =
      (createOrToggleLike s { noteId := noteId, userId := userId } now).1 := by
  unfold likeRoute
  simp only [hn]
  rcases createOrToggleLike s { noteId := noteId, userId := userId } now with ⟨s1, r⟩
  cases r <;> rfl

/-- C4: toggleLike is its own inverse — in every reachable state, toggling a
like twice for the same (noteId, userId) pair on an existing note restores
both the existence/absence of the Like record for the pair and the note's
`likes` counter. -/
theorem toggleLike_involutive (s : MemStorage) (hr : Reachable s)
    (noteId userId now1 now2 : Nat) (note : Note)
    (hn : getNoteById s noteId = some note) :
    (getLikeByUserAndNote
        (likeRoute (likeRoute s noteId userId now1).1 noteId userId now2).1
        userId noteId).isSome =
      (getLikeByUserAndNote s userId noteId).isSome ∧
    ∃ note2, getNoteById
        (likeRoute (likeRoute s noteId userId now1).1 noteId userId now2).1 noteId =
      some note2 ∧ note2.likes = note.likes := by
  have h := reachable_inv hr
  obtain ⟨hnmem, hnid⟩ := getNoteById_mem hn
  have hinv1 : Inv (likeRoute s noteId userId now1).1 := inv_likeRoute h noteId userId now1
  cases hel : getLikeByUserAndNote s userId noteId with
  | some el =>
    obtain ⟨helmem, heluid, helnid⟩ := getLikeByUserAndNote_mem hel
    have htog1 := createOrToggleLike_delete h hn hel now1
    have hs1 : (likeRoute s noteId userId now1).1 =
        { s with likes := mapDelete Like.id el.id s.likes,
                 notes := (mapSet Note.id noteId
                   { note with likes := note.likes - 1 } s.notes) } := by
      rw [likeRoute_fst hn userId now1, htog1]
    have hn2 : getNoteById (likeRoute s noteId userId now1).1 noteId =
        some { note with likes := note.likes - 1 } := by
      rw [hs1]
      exact find?_mapSet_self hnid
    have hel2 : getLikeByUserAndNote (likeRoute s noteId userId now1).1 userId noteId =
        none := by
      rw [hs1]
      exact find?_pair_delete_none h.like_unique helmem heluid helnid
    have htog2 := createOrToggleLike_create hinv1 hn2 hel2 now2
    have hs2 : (likeRoute (likeRoute s noteId userId now1).1 noteId userId now2).1 =
        { s with currentLikeId := s.currentLikeId + 1,
                 likes := (mapSet Like.id s.currentLikeId
                   { id := s.currentLikeId, noteId := noteId, userId := userId,
                     createdAt := now2 } (mapDelete Like.id el.id s.likes)),
                 notes := (mapSet Note.id noteId
                   { note with likes := note.likes - 1 + 1 }
                   (mapSet Note.id noteId
                     { note with likes := note.likes - 1 } s.notes)) } := by
      rw [likeRoute_fst hn2 userId now2, htog2, hs1]
    have hfreshdel : ∀ x ∈ mapDelete Like.id el.id s.likes, x.id ≠ s.currentLikeId :=
      fun x hx => Nat.ne_of_lt (h.likes_lt x (mem_of_mem_mapDelete hx).1)
    constructor
    · have hfind : getLikeByUserAndNote
          (likeRoute (likeRoute s noteId userId now1).1 noteId userId now2).1
          userId noteId =
          some { id := s.currentLikeId, noteId := noteId, userId := userId,
                 createdAt := now2 } := by
        rw [hs2]
        show List.find? _
          (mapSet Like.id s.currentLikeId _ (mapDelete Like.id el.id s.likes)) = _
        rw [mapSet_of_forall_ne hfreshdel]
        exact find?_pair_append
          (find?_pair_delete_none h.like_unique helmem heluid helnid) rfl rfl
      rw [hfind]
      rfl
    · refine ⟨{ note with likes := note.likes - 1 + 1 }, ?_, ?_⟩
      · rw [hs2]
        exact find?_mapSet_self hnid
      · show note.likes - 1 + 1 = note.likes
        omega
  | none =>
    have htog1 := createOrToggleLike_create h hn hel now1
    have hs1 : (likeRoute s noteId userId now1).1 =
        { s with currentLikeId := s.currentLikeId + 1,
                 likes := (mapSet Like.id s.currentLikeId
                   { id := s.currentLikeId, noteId := noteId, userId := userId,
                     createdAt := now1 } s.likes),
                 notes := (mapSet Note.id noteId
                   { note with likes := note.likes + 1 } s.notes) } := by
      rw [likeRoute_fst hn userId now1, htog1]
    have hlfresh : ∀ x ∈ s.likes, x.id ≠ s.currentLikeId :=
      fun x hx => Nat.ne_of_lt (h.likes_lt x hx)
    have happend : mapSet Like.id s.currentLikeId
        { id := s.currentLikeId, noteId := noteId, userId := userId,
          createdAt := now1 } s.likes =
        s.likes ++
          [{ id := s.currentLikeId, noteId := noteId, userId := userId,
             createdAt := now1 }] :=
      mapSet_of_forall_ne hlfresh
    have hn2 : getNoteById (likeRoute s noteId userId now1).1 noteId =
        some { note with likes := note.likes + 1 } := by
      rw [hs1]
      exact find?_mapSet_self hnid
    have hel2 : getLikeByUserAndNote (likeRoute s noteId userId now1).1 userId noteId =
        some { id := s.currentLikeId, noteId := noteId, userId := userId,
               createdAt := now1 } := by
      rw [hs1]
      show List.find? _ (mapSet Like.id _ _ _) = _
      rw [happend]
      exact find?_pair_append hel rfl rfl
    have htog2 := createOrToggleLike_delete hinv1 hn2 hel2 now2
    have hs2 : (likeRoute (likeRoute s noteId userId now1).1 noteId userId now2).1 =
        { s with currentLikeId := s.currentLikeId + 1,
                 likes := (mapDelete Like.id s.currentLikeId
                   (mapSet Like.id s.currentLikeId
                     { id := s.currentLikeId, noteId := noteId, userId := userId,
                       createdAt := now1 } s.likes)),
                 notes := (mapSet Note.id noteId
                   { note with likes := note.likes + 1 - 1 }
                   (mapSet Note.id noteId
                     { note with likes := note.likes + 1 } s.notes)) } := by
      rw [likeRoute_fst hn2 userId now2, htog2, hs1]
    have hlikes2 : mapDelete Like.id s.currentLikeId
        (mapSet Like.id s.currentLikeId
          { id := s.currentLikeId, noteId := noteId, userId := userId,
            createdAt := now1 } s.likes) = s.likes := by
      rw [happend]
      exact mapDelete_append_fresh hlfresh rfl
    constructor
    · have hfind : getLikeByUserAndNote
          (likeRoute (likeRoute s noteId userId now1).1 noteId userId now2).1
          userId noteId = none := by
        rw [hs2]
        show List.find? _ (mapDelete Like.id s.currentLikeId _) = none
        rw [hlikes2]
        exact hel
      rw [hfind]
    · refine ⟨{ note with likes := note.likes + 1 - 1 }, ?_, ?_⟩
      · rw [hs2]
        exact find?_mapSet_self hnid
      · show note.likes + 1 - 1 = note.likes
        omega

theorem toggleLike_involutive_witness :
    (getLikeByUserAndNote
        (likeRoute (likeRoute wState1 1 1 8).1 1 1 9).1 1 1).isSome =
      (getLikeByUserAndNote wState1 1 1).isSome ∧
    ∃ note2, getNoteById (likeRoute (likeRoute wState1 1 1 8).1 1 1 9).1 1 =
      some note2 ∧ note2.likes = wNote1.likes :=
  toggleLike_involutive wState1
    (Reachable.step _ (Reachable.step _ (Reachable.step _ Reachable.init)))
    1 1 8 9 wNote1 (by decide)

/-- C3 (the code violates it): a reachable state in which a user's coin
balance is negative — the seller of a premium note with caller-supplied
negative `coinPrice` ends at -90 coins after one download. -/
theorem coins_go_negative :
    Reachable c3State ∧
    (getUser c3State 1).map User.coins = some (-90) ∧
    ∃ u ∈ c3State.users, u.coins < 0 :=
  ⟨Reachable.step _ (Reachable.step _ (Reachable.step _ (Reachable.step _ Reachable.init))),
   by decide, by decide⟩

/-- C8 (the code violates it): a note-creation request with negative
`coinPrice` is not rejected — the route responds `created`, the note is stored
with `coinPrice = -5`, and the premium upload bonus of 10 coins is credited. -/
theorem negative_price_note_accepted :
    Reachable c8State ∧
    (uploadNoteRoute c8Pre 1 negPriceReq "u" 1).2 = UploadResult.created c8Note ∧
    (getNoteById c8State 1).map Note.coinPrice = some (-5) ∧
    (getUser c8State 1).map User.coins = some 10 :=
  ⟨Reachable.step _ (Reachable.step _ Reachable.init), by decide, by decide, by decide⟩

/-- C5 (the code violates it): a reply to discussion 2 whose `parentReplyId`
references reply 1 — which belongs to discussion 1 — is stored rather than
rejected, and `repliesFor(2)` includes it. -/
theorem reply_parent_not_validated :
    Reachable c5State ∧
    (createReplyRoute c5S4 2 1 "r2" (some 1) none none 4).2 =
      ReplyResult.created c5Reply2 ∧
    c5Reply2 ∈ getDiscussionRepliesByDiscussionId c5State 2 ∧
    (c5State.discussionReplies.find? (fun r => r.id == 1)).map
      DiscussionReply.discussionId = some 1 :=
  ⟨Reachable.step _ (Reachable.step _ (Reachable.step _ (Reachable.step _
      (Reachable.step _ Reachable.init)))),
   by decide, by decide, by decide⟩

theorem pairwise_filter_length_le_one {α : Type} {R : α → α → Prop} {l : List α}
    (hpw : l.Pairwise R) (p : α → Bool)
    (hcon : ∀ x y, p x = true → p y = true → ¬ R x y) :
    (l.filter p).length ≤ 1 := by
  have h2 : (l.filter p).Pairwise R := hpw.sublist (List.filter_sublist l)
  cases hf : l.filter p with
  | nil => simp
  | cons a t =>
    cases t with
    | nil => simp
    | cons b t2 =>
      exfalso
      rw [hf] at h2
      have hR : R a b := (List.pairwise_cons.1 h2).1 b (List.mem_cons_self b t2)
      have hmema : a ∈ l.filter p := by rw [hf]; exact List.mem_cons_self a _
      have hmemb : b ∈ l.filter p := by
        rw [hf]
        exact List.mem_cons_of_mem a (List.mem_cons_self b t2)
      exact hcon a b (List.mem_filter.1 hmema).2 (List.mem_filter.1 hmemb).2 hR

/-- Two stored follows for the same ordered pair are the same row. -/
theorem follow_pair_unique {follows : List Follow}
    (huniq : follows.Pairwise
      (fun a b => ¬(a.followerId = b.followerId ∧ a.followedId = b.followedId)))
    {x y : Follow} (hx : x ∈ follows) (hy : y ∈ follows)
    (hxy : x.followerId = y.followerId ∧ x.followedId = y.followedId) : x = y := by
  by_contra hne
  have hsymm : Symmetric
      (fun a b : Follow => ¬(a.followerId = b.followerId ∧ a.followedId = b.followedId)) :=
    fun a b hab hc => hab ⟨hc.1.symm, hc.2.symm⟩
  exact huniq.forall hsymm hx hy hne hxy

/-- C6: Follow toggle and self-follow rejection — self-follows are rejected
with no state change; in any reachable state at most one Follow exists per
ordered pair, and when the followed user exists the route removes the
existing Follow (reporting `following = false`) or stores exactly one
(reporting `following = true`). -/
theorem follow_toggle_spec :
    (∀ (s : MemStorage) (uid now : Nat),
      followRoute s uid uid now = (s, FollowResult.cannotFollowSelf)) ∧
    (∀ (s : MemStorage) (followerId followedId now : Nat), Reachable s →
      (followsForPair s followerId followedId).length ≤ 1 ∧
      (∀ u, getUser s followedId = some u → followerId ≠ followedId →
        (∀ f, getFollowByIds s followerId followedId = some f →
          (followRoute s followerId followedId now).2 = FollowResult.following false ∧
          followsForPair (followRoute s followerId followedId now).1
            followerId followedId = []) ∧
        (getFollowByIds s followerId followedId = none →
          (followRoute s followerId followedId now).2 = FollowResult.following true ∧
          (followsForPair (followRoute s followerId followedId now).1
            followerId followedId).length = 1))) := by
  constructor
  · intro s uid now
    unfold followRoute
    rw [if_pos rfl]
  · intro s a b now hr
    have h := reachable_inv hr
    constructor
    · apply pairwise_filter_length_le_one h.follow_unique
      intro x y hx hy
      simp only [Bool.and_eq_true, beq_iff_eq] at hx hy
      intro hR
      exact hR ⟨hx.1.trans hy.1.symm, hx.2.trans hy.2.symm⟩
    · intro u hu hab
      constructor
      · intro f hf
        obtain ⟨hfmem, hfa, hfb⟩ := getFollowByIds_mem hf
        have hroute : followRoute s a b now =
            (removeFollow s a b, FollowResult.following false) := by
          unfold followRoute
          rw [if_neg hab]
          simp only [hu, hf]
        have hrm : removeFollow s a b =
            { s with follows := mapDelete Follow.id f.id s.follows } := by
          unfold removeFollow
          rw [hf]
        rw [hroute]
        refine ⟨rfl, ?_⟩
        show followsForPair (removeFollow s a b) a b = []
        rw [hrm]
        unfold followsForPair
        apply List.filter_eq_nil_iff.2
        intro x hx
        obtain ⟨hxin, hxid⟩ := mem_of_mem_mapDelete hx
        intro hpred
        simp only [Bool.and_eq_true, beq_iff_eq] at hpred
        have hxf : x = f := follow_pair_unique h.follow_unique hxin hfmem
          ⟨hpred.1.trans hfa.symm, hpred.2.trans hfb.symm⟩
        exact hxid (by rw [hxf])
      · intro hfnone
        have hroute : followRoute s a b now =
            ((createFollow s { followerId := a, followedId := b } now).1,
             FollowResult.following true) := by
          unfold followRoute
          rw [if_neg hab]
          simp only [hu, hfnone]
        have hcf : (createFollow s { followerId := a, followedId := b } now).1 =
            { s with currentFollowId := s.currentFollowId + 1,
                     follows := (mapSet Follow.id s.currentFollowId
                       { id := s.currentFollowId, followerId := a, followedId := b,
                         createdAt := now } s.follows) } := rfl
        rw [hroute]
        refine ⟨rfl, ?_⟩
        show (followsForPair (createFollow s { followerId := a, followedId := b } now).1
          a b).length = 1
        rw [hcf]
        unfold followsForPair
        show (List.filter _ (mapSet Follow.id s.currentFollowId _ s.follows)).length = 1
        rw [mapSet_of_forall_ne (fun x hx => Nat.ne_of_lt (h.follows_lt x hx)),
          List.filter_append]
        have h1 : s.follows.filter
            (fun f => f.followerId == a && f.followedId == b) = [] := by
          apply List.filter_eq_nil_iff.2
          intro x hx hpred
          simp only [Bool.and_eq_true, beq_iff_eq] at hpred
          exact getFollowByIds_none hfnone x hx hpred
        rw [h1]
        simp

theorem follow_toggle_spec_witness :
    (followRoute c6State 1 2 9).2 = FollowResult.following true ∧
    (followsForPair (followRoute c6State 1 2 9).1 1 2).length = 1 :=
  ((follow_toggle_spec.2 c6State 1 2 9
      (Reachable.step _ (Reachable.step _ Reachable.init))).2
    { id := 2, username := "bob", email := "b@x", password := "p2", coins := 0,
      avatarUrl := none, createdAt := 0 }
    (by decide) (by decide)).2 (by decide)

/-- C7 counterexample: two notes created at the same instant come back from
`getRecentNotes` in id-ascending order `[1, 2]` — the claimed id-descending
tie-break would require `[2, 1]`. -/
theorem recent_tie_order_counterexample :
    Reachable c7State ∧
    (getRecentNotes c7State 6).map Note.id = [1, 2] ∧
    (getRecentNotes c7State 6).map Note.createdAt = [5, 5] :=
  ⟨Reachable.step _ (Reachable.step _ (Reachable.step _ Reachable.init)),
   by decide, by decide⟩

/-- C7 amended: `getRecentNotes` returns the notes sorted descending by
`createdAt` with any two notes of equal `createdAt` ordered by id ascending
(creation order, by stability of the sort), truncated to the first `limit`
notes: the output is `List.take limit` of the unique arrangement of all of
`s.notes` that is sorted by `recentOrder`, so it consists of the `limit`
most recent notes (fewer only when fewer exist). -/
theorem recent_sorted_desc_ties_ascending (s : MemStorage) (hr : Reachable s)
    (limit : Nat) :
    (getRecentNotes s limit).length = min limit s.notes.length ∧
    ∃ sorted : List Note,
      sorted.Perm s.notes ∧
      sorted.Pairwise recentOrder ∧
      (∀ l : List Note, l.Perm s.notes → l.Pairwise recentOrder → l = sorted) ∧
      getRecentNotes s limit = List.take limit sorted := by
  have h := reachable_inv hr
  have hstable := jsSort_desc_stable Note.createdAt Note.id s.notes h.notes_sorted
  have hperm : (jsSort (fun a b => Note.createdAt b ≤ Note.createdAt a)
      s.notes).Perm s.notes := jsSort_perm s.notes
  refine ⟨?_, jsSort (fun a b => Note.createdAt b ≤ Note.createdAt a) s.notes,
    hperm, hstable, ?_, rfl⟩
  · unfold getRecentNotes
    rw [List.length_take, jsSort_length]
  · intro l hl hlp
    have hanti : ∀ a b : Note, recentOrder a b → recentOrder b a → a = b := by
      intro a b h1 h2
      rcases h1 with h1 | ⟨he1, hi1⟩ <;> rcases h2 with h2 | ⟨he2, hi2⟩ <;>
        exfalso <;> omega
    haveI : IsAntisymm Note recentOrder := ⟨hanti⟩
    exact List.eq_of_perm_of_sorted (hl.trans hperm.symm) hlp hstable

theorem recent_sorted_desc_ties_ascending_witness :
    (getRecentNotes c7State 6).length = min 6 c7State.notes.length ∧
    ∃ sorted : List Note,
      sorted.Perm c7State.notes ∧
      sorted.Pairwise recentOrder ∧
      (∀ l : List Note, l.Perm c7State.notes → l.Pairwise recentOrder →
        l = sorted) ∧
      getRecentNotes c7State 6 = List.take 6 sorted :=
  recent_sorted_desc_ties_ascending c7State
    (Reachable.step _ (Reachable.step _ (Reachable.step _ Reachable.init))) 6

theorem find?_map_strip (l : List User) (uid : Nat) (p : String) (uid' : Nat) :
    ((l.map (fun u => if u.id = uid then { u with password := p } else u)).find?
      (fun u => u.id == uid')).map stripUser =
    (l.find? (fun u => u.id == uid')).map stripUser := by
  induction l with
  | nil => rfl
  | cons a t ih =>
    by_cases ha : a.id = uid
    · simp only [List.map_cons, if_pos ha]
      cases hpred : (a.id == uid') with
      | true =>
        have hoh : (({ a with password := p } : User).id == uid') = true := hpred
        simp only [List.find?_cons, hoh, hpred]
        rfl
      | false =>
        have hoh : (({ a with password := p } : User).id == uid') = false := hpred
        simp only [List.find?_cons, hoh, hpred]
        exact ih
    · simp only [List.map_cons, if_neg ha]
      cases hpred : (a.id == uid') with
      | true => simp only [List.find?_cons, hpred]
      | false =>
        simp only [List.find?_cons, hpred]
        exact ih

/-- C9: the followers/following routes return the complete stored `User`
records — password field included — while the single-user lookup is
insensitive to any stored password; the followers output does depend on a
listed user's password, as the concrete disequality shows. -/
theorem followers_expose_passwords :
    (∀ (s : MemStorage) (uid : Nat) (u : User), u ∈ followersRoute s uid → u ∈ s.users) ∧
    (∀ (s : MemStorage) (uid : Nat) (u : User), u ∈ followingRoute s uid → u ∈ s.users) ∧
    (∀ (s : MemStorage) (uid : Nat) (p : String) (uid' : Nat),
      getUserRoute (setUserPassword s uid p) uid' = getUserRoute s uid') ∧
    followersRoute (setUserPassword c9State 2 "other") 1 ≠ followersRoute c9State 1 := by
  refine ⟨?_, ?_, ?_, ?_⟩
  · intro s uid u hu
    unfold followersRoute getFollowersByUserId at hu
    exact (List.mem_filter.1 hu).1
  · intro s uid u hu
    unfold followingRoute getFollowingByUserId at hu
    exact (List.mem_filter.1 hu).1
  · intro s uid p uid'
    unfold getUserRoute setUserPassword getUser
    exact find?_map_strip s.users uid p uid'
  · decide

theorem followers_expose_passwords_witness : c9User2 ∈ c9State.users :=
  followers_expose_passwords.1 c9State 1 c9User2 (by decide)

/-! ## Non-atomic note creation -/

/-- C10: when `createNote` is invoked with a `userId` no stored user has, the
coin-award step throws — the call reports an error — but the note has already
been inserted with the fresh id and the dangling owner, and the error does
not roll the insertion back. -/
theorem createNote_not_atomic (s : MemStorage) (i : InsertNote) (now : Nat)
    (hghost : ∀ u ∈ s.users, u.id ≠ i.userId) :
    (∃ e, (createNote s i now).2 = Except.error e) ∧
    ∃ n ∈ ((createNote s i now).1).notes,
      n.id = s.currentNoteId ∧ n.userId = i.userId ∧
      ∀ u ∈ ((createNote s i now).1).users, u.id ≠ n.userId := by
  have hgu : getUser s i.userId = none := find?_key_eq_none hghost
  have huc : ∀ t : MemStorage, t.users = s.users → ∀ c : Int,
      updateUserCoins t i.userId c = (t, Except.error "User not found") := by
    intro t ht c
    have hg : getUser t i.userId = none := by
      unfold getUser
      rw [ht]
      exact hgu
    unfold updateUserCoins
    rw [hg]
  unfold createNote
  dsimp only
  simp only [huc]
  refine ⟨⟨"User not found", rfl⟩, ?_⟩
  refine ⟨{ id := s.currentNoteId, title := i.title, description := i.description,
            userId := i.userId, category := i.category, fileUrl := i.fileUrl,
            fileName := i.fileName, fileSize := i.fileSize, fileType := i.fileType,
            isPremium := i.isPremium, coinPrice := i.coinPrice,
            previewPages := i.previewPages, downloads := 0, likes := 0,
            tags := i.tags, createdAt := now }, ?_, rfl, rfl, ?_⟩
  · exact self_mem_mapSet
  · exact hghost

theorem createNote_not_atomic_witness :
    (∃ e, (createNote initialStorage c10Insert 0).2 = Except.error e) ∧
    ∃ n ∈ ((createNote initialStorage c10Insert 0).1).notes,
      n.id = initialStorage.currentNoteId ∧ n.userId = c10Insert.userId ∧
      ∀ u ∈ ((createNote initialStorage c10Insert 0).1).users, u.id ≠ n.userId :=
  createNote_not_atomic initialStorage c10Insert 0 (by decide)

end NoteShare

